import Mathlib

/-!
Verification development for the goclj Clojure parser/formatter.

The definitions below are a shallow embedding of the Go sources:
  * `src/parse/lex.go`   — the scanner (`lexOuter`, `lexDispatch`, ...),
  * `src/parse/parse.go` — the tree builder (`Tree.parse`, `parseList`, ...),
  * `src/parse/node.go`  — the node model (`isSemantic`, ...),
  * `src/format/format.go` — the printer (`printNode`, `printSequence`,
    `indentStyleForSymbol`, ...).

Go machine integers never overflow in the modelled paths (positions and
column counters only grow by input length), so they are modelled as `Nat`;
`strconv.ParseInt` (used for character literals, base 8/16, bitSize 32) is
modelled exactly including its sign handling and range check.  The scanner
runs as a goroutine in Go; the parser requests tokens one at a time, so the
scanner is modelled as the eager token list it would stream.  Reading from
the scanner's closed channel yields Go's zero `token` value (`typ` is
`tokEOF` = 0, `pos` is `nil`), which the model reproduces with an
end-of-stream token whose position is `none`.  A Go `panic` that
`Tree.recover` does not convert into an error (such as the parser's
`panic("should not happen")`) crashes the program; the model returns a
distinguished `crash` outcome for those.
-/

namespace Goclj

/-- Source position, from `Pos` in src/parse/lex.go: source name, byte
offset, line and column.  Columns advance by UTF-8 byte width, as in
`lexer.next`. -/
structure Pos where
  name : String
  offset : Nat
  line : Nat
  col : Nat
deriving DecidableEq, Repr

/-- Rendering of a position, `Pos.String` in lex.go: `name:line:col`. -/
def Pos.render (p : Pos) : String :=
  p.name ++ ":" ++ toString p.line ++ ":" ++ toString p.col

/-- The error format of `Pos.FormatError` in lex.go:
`<tag> error at <name>:<line>:<col>: <msg>`. -/
def Pos.formatErr (p : Pos) (tag msg : String) : String :=
  tag ++ " error at " ++ p.render ++ ": " ++ msg

/-- Token kinds, the `tokType` enumeration in src/parse/lex.go. -/
inductive TokTyp where
  | eof
  | apostrophe
  | atSign
  | backtick
  | charLiteral
  | circumflex
  | comment
  | dispatch
  | keyword
  | leftBrace
  | leftBracket
  | leftParen
  | number
  | octothorpe
  | rightBrace
  | rightBracket
  | rightParen
  | str
  | symbol
  | tilde
  | newline
  | err
deriving DecidableEq, Repr

/-- A scanner token (`token` in lex.go).  `pos` is `none` only for the zero
token value that a read from the scanner's closed channel produces. -/
structure Token where
  typ : TokTyp
  pos : Option Pos
  val : String
deriving DecidableEq, Repr

/-- Whitespace in the sense of Go's `unicode.IsSpace`: the Latin-1 white
space characters plus the Unicode space separators. -/
def isSpaceGo (c : Char) : Bool :=
  c = ' ' || c = '\t' || c = '\n' || c = Char.ofNat 11 || c = Char.ofNat 12 ||
  c = '\r' || c = Char.ofNat 0x85 || c = Char.ofNat 0xA0 ||
  c = Char.ofNat 0x1680 ||
  (Char.ofNat 0x2000 ≤ c && c ≤ Char.ofNat 0x200A) ||
  c = Char.ofNat 0x2028 || c = Char.ofNat 0x2029 ||
  c = Char.ofNat 0x202F || c = Char.ofNat 0x205F || c = Char.ofNat 0x3000

/-- The scanner's `isWhitespace`: Unicode space or a comma. -/
def isWhitespace (c : Char) : Bool := isSpaceGo c || c = ','

/-- The scanner's `isWhitespaceNotNL`. -/
def isWhitespaceNotNL (c : Char) : Bool := c ≠ '\n' && isWhitespace c

/-- The scanner's `isSymbolChar`: any rune that is neither whitespace nor
one of the structural/quoting characters. -/
def isSymbolChar (c : Char) : Bool :=
  !(isWhitespace c) &&
  !(c = '"' || c = ';' || c = '@' || c = '^' || c = '~' || c = '(' ||
    c = ')' || c = '[' || c = ']' || c = '\x7b' || c = '\x7d' || c = '\\')

/-- Position advance for one consumed rune, from `lexer.next`: offset and
column grow by the rune's UTF-8 width; a newline bumps the line and resets
the column to 1. -/
def advancePos (p : Pos) (c : Char) : Pos :=
  let w := c.utf8Size
  let p' : Pos := { p with offset := p.offset + w, col := p.col + w }
  if c = '\n' then { p' with line := p'.line + 1, col := 1 } else p'

/-- Position advance over a list of consumed runes. -/
def advanceAll (p : Pos) (cs : List Char) : Pos := cs.foldl advancePos p

/-- Characters a comment body may contain; `lexComment` scans until a
carriage return or newline (`scanUntil "\r\n"`), without consuming it. -/
def commentChar (c : Char) : Bool := c ≠ '\r' && c ≠ '\n'

/-- String-literal scan from `lexString`: consumes up to and including the
closing quote, tracking the backslash-escape flag; `none` on end of input.
Returns the consumed runes (closing quote included) and the rest. -/
def scanStr (cs : List Char) (escaped : Bool) : Option (List Char × List Char) :=
  match cs with
  | [] => none
  | c :: rest =>
    if c = '"' && !escaped then some ([c], rest)
    else
      let escaped' := if c = '\\' then !escaped else false
      match scanStr rest escaped' with
      | none => none
      | some (tk, r) => some (c :: tk, r)

/-- Result of one cycle of the scanner's state machine: the tokens it
emitted, and either termination (the Go state function returned `nil`) or
the state with which `lexOuter` is re-entered. -/
inductive LexStep where
  | stop (toks : List Token)
  | cont (toks : List Token) (rest : List Char) (pos start : Pos) (val : List Char)

/-- Tail of `lexKeyword`: scan symbol characters, report "empty keyword"
when the accumulated token text is empty, otherwise emit the keyword.
`val` is the token text accumulated so far (it already contains the
leading `:` on every path that reaches `lexKeyword`). -/
def keywordFin (input : List Char) (pos start : Pos) (val : List Char) : LexStep :=
  let tk := input.takeWhile isSymbolChar
  let rest := input.dropWhile isSymbolChar
  let valk := val ++ tk
  if valk.length = 0 then
    .stop [⟨.err, some start, "empty keyword"⟩]
  else
    let pos2 := advanceAll pos tk
    .cont [⟨.keyword, some start, String.mk valk⟩] rest pos2 pos2 []

/-- One cycle of the scanner starting in `lexOuter` (src/parse/lex.go),
given the remaining input, the current position, and the start position and
accumulated text of the token being scanned.  Normally a cycle begins with
`start = pos` and `val = []`; the `#<` case leaves them dirty because its
`errorf` result is discarded and scanning continues. -/
def lexStep (input : List Char) (pos start : Pos) (val : List Char) : LexStep :=
  match input with
  | [] => .stop [⟨.eof, some start, String.mk val⟩]
  | c :: rest =>
    let pos1 := advancePos pos c
    let val1 := val ++ [c]
    if c = ';' then
      -- lexComment
      let tk := rest.takeWhile commentChar
      let rest2 := rest.dropWhile commentChar
      let pos2 := advanceAll pos1 tk
      .cont [⟨.comment, some start, String.mk (val1 ++ tk)⟩] rest2 pos2 pos2 []
    else if c = '"' then
      -- lexString
      match scanStr rest false with
      | none => .stop [⟨.err, some start, "reached EOF before string closing quote"⟩]
      | some (tk, rest2) =>
        let pos2 := advanceAll pos1 tk
        .cont [⟨.str, some start, String.mk (val1 ++ tk)⟩] rest2 pos2 pos2 []
    else if c = '\\' then
      -- lexCharLiteral: one rune, then symbol characters
      match rest with
      | [] => .stop [⟨.err, some start, "invalid character literal"⟩]
      | d :: rest2 =>
        let tk := rest2.takeWhile isSymbolChar
        let rest3 := rest2.dropWhile isSymbolChar
        let pos2 := advanceAll (advancePos pos1 d) tk
        .cont [⟨.charLiteral, some start, String.mk (val1 ++ d :: tk)⟩] rest3 pos2 pos2 []
    else if c = ':' then
      -- lexKeyword (val1 already holds the ':')
      keywordFin rest pos1 start val1
    else if c = '%' then
      -- lexSymbol ('%' may only start a symbol)
      let tk := rest.takeWhile isSymbolChar
      let rest2 := rest.dropWhile isSymbolChar
      .cont [⟨.symbol, some start, String.mk (val1 ++ tk)⟩] rest2
        (advanceAll pos1 tk) (advanceAll pos1 tk) []
    else if c = '#' then
      -- lexDispatch
      match rest with
      | [] =>
        -- at EOF: emit an octothorpe token and return nil (no EOF token)
        .stop [⟨.octothorpe, some start, String.mk val1⟩]
      | d :: rest2 =>
        let pos2 := advancePos pos1 d
        let val2 := val1 ++ [d]
        if d = '\x7b' || d = '(' || d = '"' then
          -- paired-delimiter dispatch: synth the two-char token, push the
          -- second character back to be re-scanned
          .cont [⟨.dispatch, some start, String.mk val2⟩] (d :: rest2) pos1 pos1 []
        else if d = '?' then
          match rest2 with
          | [] => .stop [⟨.dispatch, some start, String.mk val2⟩]
          | e :: rest3 =>
            if e = '@' then
              -- "#?@": skip() runs before synth, so the token's position
              -- is the position after the dispatch text
              let pos3 := advancePos pos2 e
              .cont [⟨.dispatch, some pos3, String.mk (val2 ++ [e])⟩] rest3 pos3 pos3 []
            else
              .cont [⟨.dispatch, some pos2, String.mk val2⟩] (e :: rest3) pos2 pos2 []
        else if d = ':' then
          -- namespaced map: synth "#:", push the ':' back, re-consume it
          -- and continue in lexKeyword
          match keywordFin rest2 pos2 pos1 [':'] with
          | .stop t2 => .stop (⟨.dispatch, some start, String.mk val2⟩ :: t2)
          | .cont t2 r p s v => .cont (⟨.dispatch, some start, String.mk val2⟩ :: t2) r p s v
        else if d = '\'' || d = '_' || d = '^' || d = '=' then
          .cont [⟨.dispatch, some start, String.mk val2⟩] rest2 pos2 pos2 []
        else if d = '!' then
          -- "#!" comments out the rest of the line
          let tk := rest2.takeWhile commentChar
          let rest3 := rest2.dropWhile commentChar
          let pos3 := advanceAll pos2 tk
          .cont [⟨.comment, some start, String.mk (val2 ++ tk)⟩] rest3 pos3 pos3 []
        else if d = '<' then
          -- unreadable dispatch macro: errorf's nil return is dropped, so
          -- scanning continues with the token state left dirty
          .cont [⟨.err, some start, "unreadable dispatch macro"⟩] rest2 pos2 start val2
        else
          -- a tag: back(), skip(), emit an (empty) octothorpe token
          .cont [⟨.octothorpe, some pos1, ""⟩] (d :: rest2) pos1 pos1 []
    else if c = '+' || c = '-' then
      match rest with
      | [] =>
        -- emit the sign as a symbol, then the EOF token
        .stop [⟨.symbol, some start, String.mk val1⟩, ⟨.eof, some pos1, ""⟩]
      | d :: _ =>
        let tk := rest.takeWhile isSymbolChar
        let rest2 := rest.dropWhile isSymbolChar
        let typ : TokTyp := if '0' ≤ d && d ≤ '9' then .number else .symbol
        .cont [⟨typ, some start, String.mk (val1 ++ tk)⟩] rest2
          (advanceAll pos1 tk) (advanceAll pos1 tk) []
    else if c = '\'' then .cont [⟨.apostrophe, some start, String.mk val1⟩] rest pos1 pos1 []
    else if c = '@' then .cont [⟨.atSign, some start, String.mk val1⟩] rest pos1 pos1 []
    else if c = '`' then .cont [⟨.backtick, some start, String.mk val1⟩] rest pos1 pos1 []
    else if c = '^' then .cont [⟨.circumflex, some start, String.mk val1⟩] rest pos1 pos1 []
    else if c = '\x7b' then .cont [⟨.leftBrace, some start, String.mk val1⟩] rest pos1 pos1 []
    else if c = '[' then .cont [⟨.leftBracket, some start, String.mk val1⟩] rest pos1 pos1 []
    else if c = '(' then .cont [⟨.leftParen, some start, String.mk val1⟩] rest pos1 pos1 []
    else if c = '\x7d' then .cont [⟨.rightBrace, some start, String.mk val1⟩] rest pos1 pos1 []
    else if c = ']' then .cont [⟨.rightBracket, some start, String.mk val1⟩] rest pos1 pos1 []
    else if c = ')' then .cont [⟨.rightParen, some start, String.mk val1⟩] rest pos1 pos1 []
    else if c = '~' then .cont [⟨.tilde, some start, String.mk val1⟩] rest pos1 pos1 []
    else if c = '\n' then .cont [⟨.newline, some start, String.mk val1⟩] rest pos1 pos1 []
    else if isWhitespace c then
      -- lexWhitespace: skip without emitting
      let rest2 := rest.dropWhile isWhitespaceNotNL
      let pos2 := advanceAll pos1 (rest.takeWhile isWhitespaceNotNL)
      .cont [] rest2 pos2 pos2 []
    else if '0' ≤ c && c ≤ '9' then
      let tk := rest.takeWhile isSymbolChar
      let rest2 := rest.dropWhile isSymbolChar
      .cont [⟨.number, some start, String.mk (val1 ++ tk)⟩] rest2
        (advanceAll pos1 tk) (advanceAll pos1 tk) []
    else if isSymbolChar c then
      let tk := rest.takeWhile isSymbolChar
      let rest2 := rest.dropWhile isSymbolChar
      .cont [⟨.symbol, some start, String.mk (val1 ++ tk)⟩] rest2
        (advanceAll pos1 tk) (advanceAll pos1 tk) []
    else
      .stop [⟨.err, some start, "unrecognized token starting with " ++ String.mk [c]⟩]

/-- The scanner's driving loop (`lexer.run`), iterating `lexOuter` cycles.
The fuel argument only serves totality; each cycle consumes at least one
rune, so `input.length + 2` cycles always reach the end. -/
def lexRun (fuel : Nat) (input : List Char) (pos start : Pos) (val : List Char) : List Token :=
  match fuel with
  | 0 => []
  | fuel + 1 =>
    match lexStep input pos start val with
    | .stop toks => toks
    | .cont toks rest pos' start' val' => toks ++ lexRun fuel rest pos' start' val'

/-- Initial scanner position for a named source. -/
def startPos (name : String) : Pos := ⟨name, 0, 1, 1⟩

/-- The full token stream the scanner produces for an input. -/
def tokenize (name : String) (input : List Char) : List Token :=
  lexRun (input.length + 2) input (startPos name) (startPos name) []

/-- The syntax-tree node variants of src/parse/node.go.  Wrapper nodes hold
an `Option Node` child because the Go field is an interface value that the
parser can leave `nil` (it stores the result of `t.parse()`, which is `nil`
at end of input).  `CharacterNode` carries the decoded rune's code point in
`val`; its `text` field exists in node.go but is never assigned by the
parser in parse.go, so it always holds the zero value `""`. -/
inductive Node where
  | BoolNode (pos : Option Pos) (val : Bool)
  | CharacterNode (pos : Option Pos) (val : Nat) (text : String)
  | CommentNode (pos : Option Pos) (text : String)
  | DerefNode (pos : Option Pos) (child : Option Node)
  | KeywordNode (pos : Option Pos) (val : String)
  | ListNode (pos : Option Pos) (nodes : List Node)
  | MapNode (pos : Option Pos) (nodes : List Node)
  | MetadataNode (pos : Option Pos) (child : Option Node)
  | NewlineNode (pos : Option Pos)
  | NilNode (pos : Option Pos)
  | NumberNode (pos : Option Pos) (val : String)
  | SymbolNode (pos : Option Pos) (val : String)
  | QuoteNode (pos : Option Pos) (child : Option Node)
  | StringNode (pos : Option Pos) (val : String)
  | SyntaxQuoteNode (pos : Option Pos) (child : Option Node)
  | UnquoteNode (pos : Option Pos) (child : Option Node)
  | UnquoteSpliceNode (pos : Option Pos) (child : Option Node)
  | VectorNode (pos : Option Pos) (nodes : List Node)
  | FnLiteralNode (pos : Option Pos) (nodes : List Node)
  | IgnoreFormNode (pos : Option Pos) (child : Option Node)
  | RegexNode (pos : Option Pos) (val : String)
  | SetNode (pos : Option Pos) (nodes : List Node)
  | VarQuoteNode (pos : Option Pos) (val : String)
  | TagNode (pos : Option Pos) (val : String)
deriving Repr

/-- The `isSemantic` predicate of node.go: every node except comments and
newlines is semantic. -/
def isSemantic : Node → Bool
  | .CommentNode .. => false
  | .NewlineNode .. => false
  | _ => true

/-- The `countSemantic` helper of node.go. -/
def countSemantic (nodes : List Node) : Nat := (nodes.filter isSemantic).length

/-- Decoded value of one digit rune, as in Go's `strconv` lower/digit
handling: decimal digits, then letters (case-insensitive) starting at 10. -/
def digitValGo (c : Char) : Option Nat :=
  if '0' ≤ c && c ≤ '9' then some (c.toNat - '0'.toNat)
  else if 'a' ≤ c && c ≤ 'z' then some (c.toNat - 'a'.toNat + 10)
  else if 'A' ≤ c && c ≤ 'Z' then some (c.toNat - 'A'.toNat + 10)
  else none

/-- The digit loop of Go's `strconv.ParseUint`: every rune must be a digit
below the base, accumulating the value. -/
def parseUintGoAux (base acc : Nat) : List Char → Option Nat
  | [] => some acc
  | c :: rest =>
    match digitValGo c with
    | some v => if v < base then parseUintGoAux base (acc * base + v) rest else none
    | none => none

/-- Unsigned digit-string value for a given base (Go `strconv.ParseUint`
with an explicit base, so no prefixes and no underscores): every rune must
be a digit below the base, and the string must be non-empty. -/
def parseUintGo (base : Nat) (ds : List Char) : Option Nat :=
  match ds with
  | [] => none
  | _ => parseUintGoAux base 0 ds

/-- Go's `strconv.ParseInt(s, base, 32)`: an optional single leading sign,
then a non-empty run of base digits; positive values at or above `2^31` and
negative ones below `-2^31` are range errors.  (Go clamps on unsigned
overflow before the range check, which never changes whether an error is
reported.) -/
def parseIntGo (base : Nat) (s : List Char) : Option Int :=
  match s with
  | [] => none
  | c :: rest =>
    if c = '+' then
      match parseUintGo base rest with
      | none => none
      | some m => if m ≥ 2 ^ 31 then none else some (m : Int)
    else if c = '-' then
      match parseUintGo base rest with
      | none => none
      | some m => if m > 2 ^ 31 then none else some (-(m : Int))
    else
      match parseUintGo base s with
      | none => none
      | some m => if m ≥ 2 ^ 31 then none else some (m : Int)

/-- UTF-8 byte length of a rune list, modelling Go's `len` on the string
holding those runes. -/
def utf8LenChars : List Char → Nat
  | [] => 0
  | c :: rest => c.utf8Size + utf8LenChars rest

/-- Go's `len` of a string: its UTF-8 byte count. -/
def goStrLen (s : String) : Nat := utf8LenChars s.data

/-- The multi-rune arm of `Tree.parseCharLiteral` in parse.go: the text must
be a named literal or an `oNNN`/`uNNNN` escape, where the length checks are
on the Go byte length and the digits go through `strconv.ParseInt` with a
non-negativity check.  `r0` is the text's first rune. -/
def charLitMulti (val : String) (r0 : Char) : Except String Nat :=
  if val = "newline" then .ok 10
  else if val = "space" then .ok 32
  else if val = "tab" then .ok 9
  else if val = "formfeed" then .ok 12
  else if val = "backspace" then .ok 127
  else if val = "return" then .ok 13
  else if r0 = 'o' then
    match parseIntGo 8 (val.drop 1).data with
    | none => .error "invalid octal literal"
    | some n =>
      if goStrLen val ≠ 4 || n < 0 then .error "invalid octal literal"
      else .ok n.toNat
  else if r0 = 'u' then
    match parseIntGo 16 (val.drop 1).data with
    | none => .error "invalid unicode literal"
    | some n =>
      if goStrLen val ≠ 5 || n < 0 then .error "invalid unicode literal"
      else .ok n.toNat
  else .error "invalid character literal"

/-- Character-literal decoding from `Tree.parseCharLiteral` in parse.go,
applied to the token text with its leading backslash removed.  A single
rune passes through; a zero-length text falls into the rune-count check at
the end and errors; anything else goes through the multi-rune arm. -/
def charLitDecode (val : String) : Except String Nat :=
  match val.data with
  | [r] => .ok r.toNat
  | [] => .error "invalid character literal"
  | r0 :: _ => charLitMulti val r0

/-- A tagged Go error as produced by `Pos.FormatError`: the stage tag
("lex" or "parse"), the position, and the message. -/
structure GoError where
  tag : String
  pos : Pos
  msg : String
deriving DecidableEq, Repr

/-- Rendering of a `GoError` to the string the Go caller receives. -/
def GoError.render (e : GoError) : String := e.pos.formatErr e.tag e.msg

/-- Result of one parser routine: a node (or `none` at end of input)
together with the remaining tokens and the `inLambda` flag, a raised
`lexError`/`parseError`, or an unrecovered Go panic. -/
inductive PRes where
  | ok (node : Option Node) (toks : List Token) (inLambda : Bool)
  | fail (e : GoError)
  | crash (msg : String)
deriving Repr

/-- Pulling one token: a read past the end of the stream returns Go's zero
`token` value (type `tokEOF`, nil position). -/
def nextTok : List Token → Token × List Token
  | [] => (⟨.eof, none, ""⟩, [])
  | t :: ts => (t, ts)

/-- An error raised at a token's position; raising at the zero token's nil
position would dereference a nil pointer in Go, hence `crash`. -/
def errAt (p : Option Pos) (tag msg : String) : PRes :=
  match p with
  | some pos => .fail ⟨tag, pos, msg⟩
  | none => .crash "nil position"

/-- Go's `%q` of a token value.  (The `%q` verb also escapes special
characters; the token texts reaching these messages contain none, and no
theorem below inspects them.) -/
def goQuote (s : String) : String := "\"" ++ s ++ "\""

/-- Wrapping the result of a recursive `t.parse()` call in a unary node,
as the wrapper cases of `Tree.parse` do. -/
def PRes.wrap (r : PRes) (f : Option Node → Node) : PRes :=
  match r with
  | .ok child ts inL => .ok (some (f child)) ts inL
  | r => r

/-- Stripping one leading and one trailing byte from a string or regex
token's text (both delimiters are ASCII quotes). -/
def stripQuotes (s : String) : String := (s.drop 1).dropRight 1

/-- `Tree.parseRegex`: the scanner guarantees a string token follows the
`#"` dispatch token. -/
def parseRegexGo (start : Token) (ts : List Token) (inL : Bool) : PRes :=
  let (tok, ts1) := nextTok ts
  if tok.typ = .err then errAt tok.pos "lex" tok.val
  else if tok.typ ≠ .str then .crash "should not happen"
  else .ok (some (.RegexNode start.pos (stripQuotes tok.val))) ts1 inL

/-- `Tree.parseVarQuote`: expects an apostrophe token after the `#'`
dispatch token, then a symbol. -/
def parseVarQuoteGo (start : Token) (ts : List Token) (inL : Bool) : PRes :=
  let (tok, ts1) := nextTok ts
  if tok.typ = .err then errAt tok.pos "lex" tok.val
  else if tok.typ ≠ .apostrophe then .crash "should not happen"
  else
    let (tok2, ts2) := nextTok ts1
    if tok2.typ = .err then errAt tok2.pos "lex" tok2.val
    else if tok2.typ = .symbol then .ok (some (.VarQuoteNode start.pos tok2.val)) ts2 inL
    else if tok2.typ = .eof then errAt tok2.pos "parse" "unexpected EOF"
    else errAt tok2.pos "parse" ("unexpected token " ++ goQuote tok2.val)

/-- `Tree.parseTag`: a bare `#` must be followed by a symbol. -/
def parseTagGo (fuel : Nat) (start : Token) (ts : List Token) (inL : Bool) : PRes :=
  match fuel with
  | 0 => .crash "out of fuel"
  | _ + 1 =>
    let (tok, ts1) := nextTok ts
    if tok.typ = .err then errAt tok.pos "lex" tok.val
    else if tok.typ = .symbol then .ok (some (.TagNode start.pos tok.val)) ts1 inL
    else if tok.typ = .eof then errAt tok.pos "parse" "unexpected EOF"
    else errAt tok.pos "parse" ("unexpected token " ++ goQuote tok.val)

mutual

/-- The `Tree.parse` dispatcher from parse.go: consume one token and build
the corresponding node, recursing for wrapper forms and composites.  The
fuel argument only bounds recursion depth; every recursive call consumes
input, so the top-level budget in `ParseToks` never runs out. -/
def parseGo (fuel : Nat) (incl : Bool) (ts : List Token) (inL : Bool) : PRes :=
  match fuel with
  | 0 => .crash "out of fuel"
  | fuel + 1 =>
    let (tok, ts1) := nextTok ts
    if tok.typ = .err then errAt tok.pos "lex" tok.val
    else
      match tok.typ with
      | .symbol =>
        if tok.val = "nil" then .ok (some (.NilNode tok.pos)) ts1 inL
        else if tok.val = "true" || tok.val = "false" then
          .ok (some (.BoolNode tok.pos (tok.val = "true"))) ts1 inL
        else .ok (some (.SymbolNode tok.pos tok.val)) ts1 inL
      | .charLiteral =>
        match charLitDecode (tok.val.drop 1) with
        | .ok r => .ok (some (.CharacterNode tok.pos r "")) ts1 inL
        | .error msg => errAt tok.pos "parse" msg
      | .comment => .ok (some (.CommentNode tok.pos tok.val)) ts1 inL
      | .atSign => (parseGo fuel incl ts1 inL).wrap (.DerefNode tok.pos ·)
      | .keyword => .ok (some (.KeywordNode tok.pos tok.val)) ts1 inL
      | .leftParen => parseListLoop fuel incl tok [] ts1 inL
      | .leftBrace => parseMapLoop fuel incl tok [] ts1 inL
      | .circumflex => (parseGo fuel incl ts1 inL).wrap (.MetadataNode tok.pos ·)
      | .newline => .ok (some (.NewlineNode tok.pos)) ts1 inL
      | .number => .ok (some (.NumberNode tok.pos tok.val)) ts1 inL
      | .apostrophe => (parseGo fuel incl ts1 inL).wrap (.QuoteNode tok.pos ·)
      | .str => .ok (some (.StringNode tok.pos (stripQuotes tok.val))) ts1 inL
      | .backtick => (parseGo fuel incl ts1 inL).wrap (.SyntaxQuoteNode tok.pos ·)
      | .tilde =>
        let (nt, ts2) := nextTok ts1
        if nt.typ = .err then errAt nt.pos "lex" nt.val
        else if nt.typ = .atSign then
          (parseGo fuel incl ts2 inL).wrap (.UnquoteSpliceNode tok.pos ·)
        else if nt.typ = .eof then errAt nt.pos "parse" "unexpected EOF"
        else (parseGo fuel incl ts1 inL).wrap (.UnquoteNode tok.pos ·)
      | .leftBracket => parseVectorLoop fuel incl tok [] ts1 inL
      | .dispatch => parseDispatchGo fuel incl tok ts1 inL
      | .octothorpe => parseTagGo fuel tok ts1 inL
      | .eof => .ok none ts1 inL
      | _ => errAt tok.pos "parse" ("unexpected token " ++ goQuote tok.val)

/-- The loop of `Tree.parseList`: forms until `)`, EOF is an error at the
EOF token's position, non-semantic children kept per the config flag. -/
def parseListLoop (fuel : Nat) (incl : Bool) (start : Token) (acc : List Node)
    (ts : List Token) (inL : Bool) : PRes :=
  match fuel with
  | 0 => .crash "out of fuel"
  | fuel + 1 =>
    let (tok, ts1) := nextTok ts
    if tok.typ = .err then errAt tok.pos "lex" tok.val
    else if tok.typ = .rightParen then .ok (some (.ListNode start.pos acc)) ts1 inL
    else if tok.typ = .eof then errAt tok.pos "parse" "unexpected EOF"
    else
      match parseGo fuel incl ts inL with
      | .ok none _ _ => .crash "nil node in sequence"
      | .ok (some n) ts2 inL2 =>
        parseListLoop fuel incl start (if incl || isSemantic n then acc ++ [n] else acc) ts2 inL2
      | r => r

/-- The loop of `Tree.parseMap` (no pairing or parity validation). -/
def parseMapLoop (fuel : Nat) (incl : Bool) (start : Token) (acc : List Node)
    (ts : List Token) (inL : Bool) : PRes :=
  match fuel with
  | 0 => .crash "out of fuel"
  | fuel + 1 =>
    let (tok, ts1) := nextTok ts
    if tok.typ = .err then errAt tok.pos "lex" tok.val
    else if tok.typ = .rightBrace then .ok (some (.MapNode start.pos acc)) ts1 inL
    else if tok.typ = .eof then errAt tok.pos "parse" "unexpected EOF"
    else
      match parseGo fuel incl ts inL with
      | .ok none _ _ => .crash "nil node in sequence"
      | .ok (some n) ts2 inL2 =>
        parseMapLoop fuel incl start (if incl || isSemantic n then acc ++ [n] else acc) ts2 inL2
      | r => r

/-- The loop of `Tree.parseVector`. -/
def parseVectorLoop (fuel : Nat) (incl : Bool) (start : Token) (acc : List Node)
    (ts : List Token) (inL : Bool) : PRes :=
  match fuel with
  | 0 => .crash "out of fuel"
  | fuel + 1 =>
    let (tok, ts1) := nextTok ts
    if tok.typ = .err then errAt tok.pos "lex" tok.val
    else if tok.typ = .rightBracket then .ok (some (.VectorNode start.pos acc)) ts1 inL
    else if tok.typ = .eof then errAt tok.pos "parse" "unexpected EOF"
    else
      match parseGo fuel incl ts inL with
      | .ok none _ _ => .crash "nil node in sequence"
      | .ok (some n) ts2 inL2 =>
        parseVectorLoop fuel incl start (if incl || isSemantic n then acc ++ [n] else acc) ts2 inL2
      | r => r

/-- The dispatch-token switch of `Tree.parseDispatch`. -/
def parseDispatchGo (fuel : Nat) (incl : Bool) (tok : Token) (ts : List Token)
    (inL : Bool) : PRes :=
  match fuel with
  | 0 => .crash "out of fuel"
  | fuel + 1 =>
    if tok.val = "#(" then parseFnLiteralGo fuel incl tok ts inL
    else if tok.val = "#_" then parseIgnoreFormGo fuel incl tok ts inL
    else if tok.val = "#\"" then parseRegexGo tok ts inL
    else if tok.val = "#\x7b" then parseSetGo fuel incl tok ts inL
    else if tok.val = "#'" then parseVarQuoteGo tok ts inL
    else errAt tok.pos "parse" ("unexpected token " ++ goQuote tok.val)

/-- `Tree.parseFnLiteral`: reject when already inside a fn literal (error
at this form's own dispatch-token position), otherwise expect the `(` and
parse the body with the `inLambda` flag set. -/
def parseFnLiteralGo (fuel : Nat) (incl : Bool) (start : Token) (ts : List Token)
    (inL : Bool) : PRes :=
  match fuel with
  | 0 => .crash "out of fuel"
  | fuel + 1 =>
    if inL then errAt start.pos "parse" "cannot nest fn literals"
    else
      let (tok, ts1) := nextTok ts
      if tok.typ = .err then errAt tok.pos "lex" tok.val
      else if tok.typ ≠ .leftParen then .crash "should not happen"
      else parseFnLitLoop fuel incl start [] ts1

/-- The body loop of `Tree.parseFnLiteral`; the `inLambda` flag is reset to
false when the closing `)` is consumed. -/
def parseFnLitLoop (fuel : Nat) (incl : Bool) (start : Token) (acc : List Node)
    (ts : List Token) : PRes :=
  match fuel with
  | 0 => .crash "out of fuel"
  | fuel + 1 =>
    let (tok, ts1) := nextTok ts
    if tok.typ = .err then errAt tok.pos "lex" tok.val
    else if tok.typ = .rightParen then .ok (some (.FnLiteralNode start.pos acc)) ts1 false
    else if tok.typ = .eof then errAt tok.pos "parse" "unexpected EOF"
    else
      match parseGo fuel incl ts true with
      | .ok none _ _ => .crash "nil node in sequence"
      | .ok (some n) ts2 _ =>
        parseFnLitLoop fuel incl start (if incl || isSemantic n then acc ++ [n] else acc) ts2
      | r => r

/-- `Tree.parseIgnoreForm`: demands that the token after the `#_` dispatch
token is the symbol `_` (a `panic("should not happen")` otherwise), checks
the following token for EOF, then wraps the next form. -/
def parseIgnoreFormGo (fuel : Nat) (incl : Bool) (start : Token) (ts : List Token)
    (inL : Bool) : PRes :=
  match fuel with
  | 0 => .crash "out of fuel"
  | fuel + 1 =>
    let (tok, ts1) := nextTok ts
    if tok.typ = .err then errAt tok.pos "lex" tok.val
    else if tok.typ ≠ .symbol || tok.val ≠ "_" then .crash "should not happen"
    else
      let (t2, _) := nextTok ts1
      if t2.typ = .err then errAt t2.pos "lex" t2.val
      else if t2.typ = .eof then errAt t2.pos "parse" "unexpected EOF"
      else (parseGo fuel incl ts1 inL).wrap (.IgnoreFormNode start.pos ·)

/-- `Tree.parseSet`: expect the `{` pushed back by the scanner, then the
element loop. -/
def parseSetGo (fuel : Nat) (incl : Bool) (start : Token) (ts : List Token)
    (inL : Bool) : PRes :=
  match fuel with
  | 0 => .crash "out of fuel"
  | fuel + 1 =>
    let (tok, ts1) := nextTok ts
    if tok.typ = .err then errAt tok.pos "lex" tok.val
    else if tok.typ ≠ .leftBrace then .crash "should not happen"
    else parseSetLoop fuel incl start [] ts1 inL

/-- The element loop of `Tree.parseSet`. -/
def parseSetLoop (fuel : Nat) (incl : Bool) (start : Token) (acc : List Node)
    (ts : List Token) (inL : Bool) : PRes :=
  match fuel with
  | 0 => .crash "out of fuel"
  | fuel + 1 =>
    let (tok, ts1) := nextTok ts
    if tok.typ = .err then errAt tok.pos "lex" tok.val
    else if tok.typ = .rightBrace then .ok (some (.SetNode start.pos acc)) ts1 inL
    else if tok.typ = .eof then errAt tok.pos "parse" "unexpected EOF"
    else
      match parseGo fuel incl ts inL with
      | .ok none _ _ => .crash "nil node in sequence"
      | .ok (some n) ts2 inL2 =>
        parseSetLoop fuel incl start (if incl || isSemantic n then acc ++ [n] else acc) ts2 inL2
      | r => r

end

/-- Outcome of `Tree.Parse`: the root nodes, an error converted by
`Tree.recover`, or an unrecovered panic (program crash). -/
inductive ParseOutcome where
  | ok (roots : List Node)
  | fail (e : GoError)
  | crash (msg : String)
deriving Repr

/-- The root loop of `Tree.Parse`: top-level forms until `parse` returns
nil, filtered by the non-semantic-retention flag. -/
def parseRootsLoop (fuel : Nat) (incl : Bool) (acc : List Node) (ts : List Token)
    (inL : Bool) : ParseOutcome :=
  match fuel with
  | 0 => .crash "out of fuel"
  | fuel + 1 =>
    match parseGo fuel incl ts inL with
    | .ok none _ _ => .ok acc
    | .ok (some n) ts2 inL2 =>
      parseRootsLoop fuel incl (if incl || isSemantic n then acc ++ [n] else acc) ts2 inL2
    | .fail e => .fail e
    | .crash m => .crash m

/-- Fuel budget for a token stream; each level of the parser's recursion
consumes at least one token, so this budget is never exhausted. -/
def parseFuel (toks : List Token) : Nat := 8 * toks.length + 32

/-- `Tree.Parse` over a token stream. -/
def ParseToks (incl : Bool) (toks : List Token) : ParseOutcome :=
  parseRootsLoop (parseFuel toks) incl [] toks false

/-- The whole pipeline of scanner plus tree builder over a named input
string, with the given non-semantic-retention setting. -/
def ParseString (name s : String) (incl : Bool) : ParseOutcome :=
  ParseToks incl (tokenize name s.data)

/-! ### The printer (src/format/format.go and helpers)

Go keys the printer's `specialIndent`, `threadFirst` and `docstrings` maps
by node identity (interface values holding pointers).  In a tree built by
the parser every node's position is the start position of its first token,
so node identity coincides with the node's position; the maps are therefore
keyed by `Option Pos` here. -/

/-- Position of a node (the `*Pos` each node embeds). -/
def Node.posOf : Node → Option Pos
  | .BoolNode p _ | .CharacterNode p _ _ | .CommentNode p _ | .DerefNode p _
  | .KeywordNode p _ | .ListNode p _ | .MapNode p _ | .MetadataNode p _
  | .NewlineNode p | .NilNode p | .NumberNode p _ | .SymbolNode p _
  | .QuoteNode p _ | .StringNode p _ | .SyntaxQuoteNode p _ | .UnquoteNode p _
  | .UnquoteSpliceNode p _ | .VectorNode p _ | .FnLiteralNode p _
  | .IgnoreFormNode p _ | .RegexNode p _ | .SetNode p _ | .VarQuoteNode p _
  | .TagNode p _ => p

/-- Children of a node, `Node.Children` in node.go: composite nodes return
their node list, unary wrappers a one-element list, leaves nothing.  (For a
wrapper whose child was left nil by the parser the Go slice holds a nil
interface; such trees never reach the printer paths exercised below, and
the model returns the empty list for them.) -/
def childrenOf : Node → List Node
  | .ListNode _ ns | .MapNode _ ns | .VectorNode _ ns | .FnLiteralNode _ ns
  | .SetNode _ ns => ns
  | .DerefNode _ c | .MetadataNode _ c | .QuoteNode _ c | .SyntaxQuoteNode _ c
  | .UnquoteNode _ c | .UnquoteSpliceNode _ c | .IgnoreFormNode _ c => c.toList
  | _ => []

/-- The format package's `goclj.Newline`. -/
def isNewlineFmt (n : Node) : Bool :=
  match n with
  | .NewlineNode _ => true
  | _ => false

/-- The format package's `goclj.Semantic`: newlines, comments and metadata
nodes are non-semantic for the printer (unlike the parser's `isSemantic`,
this also excludes metadata). -/
def fmtSemantic (n : Node) : Bool :=
  match n with
  | .NewlineNode _ => false
  | .CommentNode .. => false
  | .MetadataNode .. => false
  | _ => true

/-- The format package's `goclj.Symbol`. -/
def isSymbolNode (n : Node) : Bool :=
  match n with
  | .SymbolNode .. => true
  | _ => false

/-- `goclj.FnFormSymbol`: a list whose first child is a symbol, optionally
restricted to a set of names. -/
def FnFormSymbol (n : Node) (syms : List String) : Bool :=
  match n with
  | .ListNode _ children =>
    match children with
    | .SymbolNode _ v :: _ => syms.isEmpty || syms.contains v
    | _ => false
  | _ => false

/-- `goclj.FnFormKeyword`: a list whose first child is a keyword, optionally
restricted to a set of names. -/
def FnFormKeyword (n : Node) (kws : List String) : Bool :=
  match n with
  | .ListNode _ children =>
    match children with
    | .KeywordNode _ v :: _ => kws.isEmpty || kws.contains v
    | _ => false
  | _ => false

/-- `isKeywordNode` from format.go. -/
def isKeywordNodeVal (n : Node) (kw : String) : Bool :=
  match n with
  | .KeywordNode _ v => v = kw
  | _ => false

/-- Indentation styles, the `IndentStyle` enumeration of format.go. -/
inductive IndentStyle where
  | IndentNormal
  | IndentList
  | IndentListBody
  | IndentLet
  | IndentFor
  | indentBindings
  | IndentLetfn
  | IndentDeftype
  | IndentCond0
  | IndentCond1
  | IndentCond2
  | IndentCond4
deriving DecidableEq, Repr

/-- Thread-first macro styles (`ThreadFirstStyle`). -/
inductive ThreadFirstStyle where
  | ThreadFirstNormal
  | ThreadFirstCondArrow
deriving DecidableEq, Repr

open IndentStyle ThreadFirstStyle

/-- Association-list lookup standing in for a Go map read. -/
def lookupA {β : Type} (l : List (String × β)) (k : String) : Option β :=
  (l.find? (·.1 = k)).map (·.2)

/-- Association-list overwrite standing in for a Go map write. -/
def insertA {β : Type} (l : List (String × β)) (k : String) (v : β) : List (String × β) :=
  (k, v) :: l.filter (·.1 ≠ k)

/-- Lookup in a map keyed by node identity (represented by position). -/
def lookupP {β : Type} (l : List (Option Pos × β)) (k : Option Pos) : Option β :=
  (l.find? (·.1 = k)).map (·.2)

/-- Overwrite in a map keyed by node identity. -/
def insertP {β : Type} (l : List (Option Pos × β)) (k : Option Pos) (v : β) :
    List (Option Pos × β) :=
  (k, v) :: l.filter (·.1 ≠ k)

/-- Deletion from a map keyed by node identity. -/
def eraseP {β : Type} (l : List (Option Pos × β)) (k : Option Pos) : List (Option Pos × β) :=
  l.filter (·.1 ≠ k)

/-- The `defaultIndents` table of format.go. -/
def defaultIndents : List (String × IndentStyle) :=
  [("as->", IndentListBody),
   ("assoc", IndentCond1),
   ("binding", IndentLet),
   ("bound-fn", IndentListBody),
   ("case", IndentCond1),
   ("catch", IndentListBody),
   ("cond", IndentCond0),
   ("cond->", IndentCond1),
   ("cond->>", IndentCond1),
   ("condp", IndentCond2),
   ("def", IndentListBody),
   ("definline", IndentListBody),
   ("definterface", IndentDeftype),
   ("defmacro", IndentListBody),
   ("defmethod", IndentListBody),
   ("defmulti", IndentListBody),
   ("defn", IndentListBody),
   ("defn-", IndentListBody),
   ("defonce", IndentListBody),
   ("defproject", IndentCond2),
   ("defprotocol", IndentDeftype),
   ("defrecord", IndentDeftype),
   ("defstruct", IndentListBody),
   ("deftest", IndentListBody),
   ("deftest-", IndentListBody),
   ("deftype", IndentDeftype),
   ("doseq", IndentFor),
   ("dotimes", IndentLet),
   ("doto", IndentListBody),
   ("extend", IndentListBody),
   ("extend-protocol", IndentDeftype),
   ("extend-type", IndentDeftype),
   ("fn", IndentListBody),
   ("for", IndentFor),
   ("if", IndentListBody),
   ("if-let", IndentLet),
   ("if-not", IndentListBody),
   ("if-some", IndentLet),
   ("let", IndentLet),
   ("letfn", IndentLetfn),
   ("locking", IndentListBody),
   ("loop", IndentLet),
   ("ns", IndentListBody),
   ("proxy", IndentDeftype),
   ("reify", IndentDeftype),
   ("send-off", IndentListBody),
   ("set-test", IndentListBody),
   ("testing", IndentListBody),
   ("update", IndentListBody),
   ("update-in", IndentListBody),
   ("when", IndentListBody),
   ("when-first", IndentLet),
   ("when-let", IndentLet),
   ("when-not", IndentListBody),
   ("when-some", IndentLet),
   ("while", IndentListBody),
   ("with-bindings", IndentListBody),
   ("with-in-str", IndentListBody),
   ("with-local-vars", IndentLet),
   ("with-open", IndentLet),
   ("with-precision", IndentListBody),
   ("with-redefs", IndentLet),
   ("with-redefs-fn", IndentListBody),
   ("with-test", IndentListBody)]

/-- The `defaultThreadFirstStyles` table of format.go. -/
def defaultThreadFirstStyles : List (String × ThreadFirstStyle) :=
  [("->", ThreadFirstNormal),
   ("cond->", ThreadFirstCondArrow),
   ("some->", ThreadFirstNormal)]

/-- The `indentExtraOffsets` array of format.go (indices absent from the
array literal hold the zero value). -/
def indentExtraOffsets : IndentStyle → Nat
  | indentBindings => 0
  | IndentCond0 => 1
  | IndentCond1 => 2
  | IndentCond2 => 3
  | IndentCond4 => 5
  | _ => 0

/-- `IndentStyle.threadFirstTransform` from format.go. -/
def threadFirstTransform : IndentStyle → IndentStyle
  | IndentCond1 => IndentCond0
  | IndentCond2 => IndentCond1
  | s => s

/-- Index of the last occurrence of a character, `strings.LastIndex` on a
one-character needle. -/
def lastIndexOf (c : Char) : List Char → Option Nat
  | [] => none
  | x :: xs =>
    match lastIndexOf c xs with
    | some i => some (i + 1)
    | none => if x = c then some 0 else none

/-- `symbolName` from format.go: the part of a symbol after its last `/`. -/
def symbolName (sym : String) : String :=
  match lastIndexOf '/' sym.data with
  | some i => String.mk (sym.data.drop (i + 1))
  | none => sym

/-- Printer configuration: the indent character and the merged style
tables (`indentStyles`, `threadFirstStyles` after `PrintTree` unions the
defaults with the overrides). -/
structure FmtCfg where
  indentChar : Char
  indentStyles : List (String × IndentStyle)
  threadFirstStyles : List (String × ThreadFirstStyle)

/-- The default printer configuration (`NewPrinter` with no overrides). -/
def defaultFmtCfg : FmtCfg := ⟨' ', defaultIndents, defaultThreadFirstStyles⟩

/-- `Printer.indentStyleForSymbol` from format.go, lines 343-365: for a
qualified name, first an alias-resolved qualified lookup through the
require table, then the bare unqualified part; for an unqualified name, a
refer-resolved qualified lookup; in all cases finally the name as
written. -/
def indentStyleForSymbol (requiresTab refersTab : List (String × String))
    (styles : List (String × IndentStyle)) (name : String) : Option IndentStyle :=
  match lastIndexOf '/' name.data with
  | some i =>
    let ns := String.mk (name.data.take i)
    let unqualified := String.mk (name.data.drop (i + 1))
    (match lookupA requiresTab ns with
     | some req => lookupA styles (req ++ "/" ++ unqualified)
     | none => none) <|>
    lookupA styles unqualified <|>
    lookupA styles name
  | none =>
    (match lookupA refersTab name with
     | some req => lookupA styles (req ++ "/" ++ name)
     | none => none) <|>
    lookupA styles name

/-- `Printer.chooseListIndent` from format.go, lines 330-341: the symbol
table resolution, then the `def`/`let`/`with-`/`when-` prefix heuristic on
the name part, then plain list alignment. -/
def chooseListIndent (requiresTab refersTab : List (String × String))
    (styles : List (String × IndentStyle)) (name : String) : IndentStyle :=
  match indentStyleForSymbol requiresTab refersTab styles name with
  | some style => style
  | none =>
    let nm := symbolName name
    if ["def", "let", "with-", "when-"].any (fun p => p.data.isPrefixOf nm.data) then
      IndentListBody
    else IndentList

/-- `Printer.chooseIndent`: keyword-led sequences use list style, symbol-led
ones resolve through `chooseListIndent`, all others are normal. -/
def chooseIndent (requiresTab refersTab : List (String × String))
    (styles : List (String × IndentStyle)) (nodes : List Node) : IndentStyle :=
  match nodes with
  | [] => IndentNormal
  | n :: _ =>
    match n with
    | .KeywordNode _ _ => IndentList
    | .SymbolNode _ v => chooseListIndent requiresTab refersTab styles v
    | _ => IndentNormal

/-- Mutable printer state: the output written so far and the maps the
printer fills before and during printing (`specialIndent`, `threadFirst`,
`docstrings`, `requires`, `refers` on the Go `Printer`). -/
structure PrSt where
  out : String
  specialIndent : List (Option Pos × IndentStyle)
  threadFirst : List (Option Pos)
  docstrings : List (Option Pos)
  requiresTab : List (String × String)
  refersTab : List (String × String)

/-- Fresh printer state, as `NewPrinter` allocates it. -/
def emptyPrSt : PrSt := ⟨"", [], [], [], [], []⟩

/-- A write to the buffered writer; returns the byte count like Go's
`WriteString`/`WriteByte` (the printer's width accounting is in bytes). -/
def PrSt.write (st : PrSt) (s : String) : Nat × PrSt :=
  (goStrLen s, { st with out := st.out ++ s })

/-- `applySpecialLet`: the first semantic argument, if a vector, gets
binding indentation. -/
def applySpecialLet (st : PrSt) (nodes : List Node) : PrSt :=
  match (nodes.drop 1).find? fmtSemantic with
  | some (.VectorNode p _) => { st with specialIndent := insertP st.specialIndent p indentBindings }
  | _ => st

/-- The loop of `applySpecialForLet`: scan the semantic elements of a
binding vector; a vector directly after an even-positioned `:let` keyword
gets binding indentation. -/
def applySpecialForLetLoop (st : PrSt) (i : Int) (prevLet : Bool) :
    List Node → PrSt
  | [] => st
  | n :: rest =>
    if !fmtSemantic n then applySpecialForLetLoop st i prevLet rest
    else
      let st1 :=
        if prevLet then
          match n with
          | .VectorNode p _ => { st with specialIndent := insertP st.specialIndent p indentBindings }
          | _ => st
        else st
      let i1 := i + 1
      if i1 % 2 ≠ 0 then applySpecialForLetLoop st1 i1 false rest
      else applySpecialForLetLoop st1 i1 (isKeywordNodeVal n ":let") rest

/-- `applySpecialForLet` from format.go. -/
def applySpecialForLet (st : PrSt) (nodes : List Node) : PrSt :=
  applySpecialForLetLoop st (-1) false nodes

/-- `applySpecialFor`: the first semantic argument, if a vector, gets
binding indentation and its `:let` sub-bindings are marked too. -/
def applySpecialFor (st : PrSt) (nodes : List Node) : PrSt :=
  match (nodes.drop 1).find? fmtSemantic with
  | some (.VectorNode p vnodes) =>
    applySpecialForLet
      { st with specialIndent := insertP st.specialIndent p indentBindings } vnodes
  | _ => st

/-- The loop of `applySpecialLetfn`: semantic arguments are scanned; each
vector's list elements get list-body indentation, and the first semantic
non-vector stops the scan. -/
def applySpecialLetfnLoop (st : PrSt) : List Node → PrSt
  | [] => st
  | n :: rest =>
    if !fmtSemantic n then applySpecialLetfnLoop st rest
    else
      match n with
      | .VectorNode _ vnodes =>
        let st1 := vnodes.foldl
          (fun acc m =>
            match m with
            | .ListNode p _ => { acc with specialIndent := insertP acc.specialIndent p IndentListBody }
            | _ => acc) st
        applySpecialLetfnLoop st1 rest
      | _ => st

/-- `applySpecialLetfn` from format.go. -/
def applySpecialLetfn (st : PrSt) (nodes : List Node) : PrSt :=
  applySpecialLetfnLoop st (nodes.drop 1)

/-- `applySpecialDeftype`: every list argument gets list-body
indentation. -/
def applySpecialDeftype (st : PrSt) (nodes : List Node) : PrSt :=
  (nodes.drop 1).foldl
    (fun acc m =>
      match m with
      | .ListNode p _ => { acc with specialIndent := insertP acc.specialIndent p IndentListBody }
      | _ => acc) st

/-- `Printer.applySpecialIndentRules`: when a list's leading symbol resolves
to a let/letfn/for/deftype style, mark the affected child forms. -/
def applySpecialIndentRules (cfg : FmtCfg) (st : PrSt) (nodes : List Node) : PrSt :=
  match nodes with
  | .SymbolNode _ v :: _ =>
    match indentStyleForSymbol st.requiresTab st.refersTab cfg.indentStyles v with
    | some IndentLet => applySpecialLet st nodes
    | some IndentLetfn => applySpecialLetfn st nodes
    | some IndentFor => applySpecialFor st nodes
    | some IndentDeftype => applySpecialDeftype st nodes
    | _ => st
  | _ => st

/-- `Printer.markDocstrings` (src/format/docstring.go): in `ns`, `defmulti`,
`def`, `defmacro` and `defn` forms whose second child is a symbol, the first
string reached while skipping newlines is recorded as a docstring. -/
def markDocstrings (st : PrSt) (n : Node) : PrSt :=
  if !(FnFormSymbol n ["ns", "defmulti", "def", "defmacro", "defn"]) then st
  else
    let nodes := childrenOf n
    if nodes.length < 3 then st
    else if !(match nodes[1]? with | some m => isSymbolNode m | none => false) then st
    else
      let rec findDoc : List Node → Option (Option Pos)
        | [] => none
        | m :: rest =>
          match m with
          | .StringNode p _ => some p
          | .NewlineNode _ => findDoc rest
          | _ => none
      match findDoc (nodes.drop 2) with
      | some p => { st with docstrings := p :: st.docstrings }
      | none => st

/-- `Printer.alignDocstring` (docstring.go): re-indent every line after the
first to the column at which the string literal starts. -/
def alignDocstring (indentChar : Char) (docstring : String) (w : Nat) : String :=
  match docstring.splitOn "\n" with
  | [] => docstring
  | first :: rest =>
    let indent := String.mk (List.replicate w indentChar)
    let aligned := rest.map fun line =>
      let line := line.trim
      if line ≠ "" then indent ++ line else line
    String.intercalate "\n" (first :: aligned)

/-- The loop of `Printer.markThreadFirstStyle` (threadfirst.go): starting
after the threaded arguments, each list form is marked (for `cond->` style
only every second list). -/
def markTFStyleLoop (tf : List (Option Pos)) (style : ThreadFirstStyle)
    (condArrowFirst : Bool) : List Node → List (Option Pos)
  | [] => tf
  | n :: rest =>
    match n with
    | .ListNode p _ =>
      let tf1 :=
        match style with
        | ThreadFirstNormal => p :: tf
        | ThreadFirstCondArrow => if !condArrowFirst then p :: tf else tf
      markTFStyleLoop tf1 style (!condArrowFirst) rest
    | _ => markTFStyleLoop tf style condArrowFirst rest

/-- `Printer.markThreadFirstStyle`: nested thread-first forms skip only the
macro name, others also skip the threaded first argument. -/
def markThreadFirstStyle (tf : List (Option Pos)) (formPos : Option Pos)
    (formNodes : List Node) (style : ThreadFirstStyle) : List (Option Pos) :=
  let i := if tf.contains formPos then 1 else 2
  markTFStyleLoop tf style true (formNodes.drop i)

mutual

/-- `Printer.markThreadFirsts` (threadfirst.go): walk the tree, marking the
argument forms of thread-first macros. -/
def markThreadFirsts (fuel : Nat) (cfg : FmtCfg) (tf : List (Option Pos)) (n : Node) :
    List (Option Pos) :=
  match fuel with
  | 0 => tf
  | fuel + 1 =>
    let tf1 :=
      match n with
      | .ListNode p nodes =>
        match nodes with
        | .SymbolNode _ v :: _ =>
          match lookupA cfg.threadFirstStyles v with
          | some style => markThreadFirstStyle tf p nodes style
          | none => tf
        | _ => tf
      | _ => tf
    markThreadFirstsList fuel cfg tf1 (childrenOf n)

/-- Recursion of `markThreadFirsts` over a node's children. -/
def markThreadFirstsList (fuel : Nat) (cfg : FmtCfg) (tf : List (Option Pos))
    (l : List Node) : List (Option Pos) :=
  match fuel with
  | 0 => tf
  | fuel + 1 =>
    match l with
    | [] => tf
    | n :: rest => markThreadFirstsList fuel cfg (markThreadFirsts fuel cfg tf n) rest

end

/-- The result of a require-entry parse (`parseRequire` in require.go), as
far as `markRequires` consumes it: the namespace name, the `:as` alias (Go
uses the empty string as "unset"), and the original `:refer` and
`:refer-macros` vectors. -/
structure RequireR where
  name : String
  asName : String
  referOrig : List Node
  referMacrosOrig : List Node

/-- The pair loop of `parseRequireSeq`: keyword/value pairs after the
namespace symbol, where `:as` takes a symbol and `:refer`/`:refer-macros`
take a list or vector of symbols; anything else invalidates the entry. -/
def parseRequirePairs (r : RequireR) : List Node → Option RequireR
  | [] => some r
  | [_] => none
  | k :: v :: rest =>
    match k with
    | .KeywordNode _ kw =>
      if kw = ":as" then
        match v with
        | .SymbolNode _ s => parseRequirePairs { r with asName := s } rest
        | _ => none
      else if kw = ":refer" || kw = ":refer-macros" then
        let r1 :=
          if kw = ":refer" then { r with referOrig := childrenOf v }
          else { r with referMacrosOrig := childrenOf v }
        match v with
        | .ListNode _ vns | .VectorNode _ vns =>
          if vns.all (fun m => !fmtSemantic m || isSymbolNode m) then
            parseRequirePairs r1 rest
          else none
        | _ => none
      else none
    | _ => none

/-- `parseRequireSeq` from require.go: the semantic elements must be a
leading symbol followed by keyword/value pairs. -/
def parseRequireSeq (nodes : List Node) : Option RequireR :=
  let semNodes := nodes.filter fmtSemantic
  match semNodes with
  | .SymbolNode _ name :: rest =>
    if rest.length % 2 ≠ 0 then none
    else parseRequirePairs ⟨name, "", [], []⟩ rest
  | _ => none

/-- `parseRequire` from require.go: a bare symbol or a list/vector entry. -/
def parseRequireFmt (n : Node) : Option RequireR :=
  match n with
  | .SymbolNode _ v => some ⟨v, "", [], []⟩
  | .ListNode _ ns | .VectorNode _ ns => parseRequireSeq ns
  | _ => none

/-- Recording one parsed require in the printer's alias and refer tables,
as the body of `Printer.markRequires` does. -/
def recordRequire (st : PrSt) (r : RequireR) : PrSt :=
  let st1 :=
    if r.asName ≠ "" then { st with requiresTab := insertA st.requiresTab r.asName r.name }
    else st
  let addRefs := fun (tab : List (String × String)) (ns : List Node) =>
    ns.foldl
      (fun acc m =>
        match m with
        | .SymbolNode _ s => insertA acc s r.name
        | _ => acc) tab
  { st1 with refersTab := addRefs (addRefs st1.refersTab r.referOrig) r.referMacrosOrig }

/-- `Printer.markRequires` (require.go): for `ns` forms, record the `:as`
aliases and referred names of every `:require`/`:require-macros` entry. -/
def markRequires (st : PrSt) (n : Node) : PrSt :=
  if !(FnFormSymbol n ["ns"]) then st
  else
    (childrenOf n).foldl
      (fun acc c =>
        if !(FnFormKeyword c [":require", ":require-macros"]) then acc
        else
          ((childrenOf c).drop 1).foldl
            (fun acc2 entry =>
              match parseRequireFmt entry with
              | some r => recordRequire acc2 r
              | none => acc2) acc) st

/-- Result of a printer routine: the returned width and state, a formatting
error (`fmtErr`, recovered by `PrintTree`), or an unrecovered panic. -/
inductive FRes where
  | ok (w2 : Nat) (st : PrSt)
  | fmtFail (msg : String)
  | crash (msg : String)

/-- The local variables of `Printer.printSequence`. -/
structure SeqSt where
  w : Nat
  w2 : Nat
  needSpace : Bool
  needIndent : Bool
  firstIndent : Nat
  firstLen : Nat
  semanticIdx : Nat
  pairIdx : Int
  extraIndent : Bool

/-- `indentListMaxCommentAlign` from format.go. -/
def indentListMaxCommentAlign : Nat := 12

mutual

/-- `Printer.printNode` from format.go: print one node at width `w` and
return the width after it.  The `default` arm of the Go type switch is an
`fmtErr`; of this node model only `IgnoreFormNode` reaches it.  A nil
wrapper child or a stray newline node would panic in Go (`crash` here). -/
def printNodeGo (fuel : Nat) (cfg : FmtCfg) (st : PrSt) (n : Node) (w : Nat) : FRes :=
  match fuel with
  | 0 => .crash "out of fuel"
  | fuel + 1 =>
    match n with
    | .BoolNode _ v =>
      let (k, st1) := st.write (if v then "true" else "false")
      .ok (w + k) st1
    | .CharacterNode _ _ text =>
      let (k, st1) := st.write text
      .ok (w + k) st1
    | .CommentNode _ text =>
      let (k, st1) := st.write text
      .ok (w + k) st1
    | .DerefNode _ child =>
      let (k, st1) := st.write "@"
      match child with
      | some c => printNodeGo fuel cfg st1 c (w + k)
      | none => .crash "nil node"
    | .FnLiteralNode _ nodes =>
      let (k, st1) := st.write "#("
      let style := chooseIndent st1.requiresTab st1.refersTab cfg.indentStyles nodes
      match printSequenceGo fuel cfg st1 nodes (w + k) style with
      | .ok w2 st2 =>
        let (k2, st3) := st2.write ")"
        .ok (w2 + k2) st3
      | r => r
    | .KeywordNode _ v =>
      let (k, st1) := st.write v
      .ok (w + k) st1
    | .ListNode p nodes =>
      let st1 := applySpecialIndentRules cfg st nodes
      let styleSt : IndentStyle × PrSt :=
        match lookupP st1.specialIndent p with
        | some sty => (sty, { st1 with specialIndent := eraseP st1.specialIndent p })
        | none => (chooseIndent st1.requiresTab st1.refersTab cfg.indentStyles nodes, st1)
      let style :=
        if styleSt.2.threadFirst.contains p then threadFirstTransform styleSt.1 else styleSt.1
      let (k, st2) := styleSt.2.write "("
      match printSequenceGo fuel cfg st2 nodes (w + k) style with
      | .ok w2 st3 =>
        let (k2, st4) := st3.write ")"
        .ok (w2 + k2) st4
      | r => r
    | .MapNode _ nodes =>
      -- the printer of format.go also emits a `#ns` prefix for namespaced
      -- maps; the map node of src/parse/node.go carries no namespace field
      let (k, st1) := st.write "\x7b"
      match printSequenceGo fuel cfg st1 nodes (w + k) indentBindings with
      | .ok w2 st2 =>
        let (k2, st3) := st2.write "\x7d"
        .ok (w2 + k2) st3
      | r => r
    | .MetadataNode _ child =>
      let (k, st1) := st.write "^"
      match child with
      | some c => printNodeGo fuel cfg st1 c (w + k)
      | none => .crash "nil node"
    | .NewlineNode _ => .crash "should not happen"
    | .NilNode _ =>
      let (k, st1) := st.write "nil"
      .ok (w + k) st1
    | .NumberNode _ v =>
      let (k, st1) := st.write v
      .ok (w + k) st1
    | .QuoteNode _ child =>
      let (k, st1) := st.write "'"
      match child with
      | some c => printNodeGo fuel cfg st1 c (w + k)
      | none => .crash "nil node"
    | .RegexNode _ v =>
      let (k, st1) := st.write ("#\"" ++ v ++ "\"")
      .ok (w + k) st1
    | .SetNode _ nodes =>
      let (k, st1) := st.write "#\x7b"
      match printSequenceGo fuel cfg st1 nodes (w + k) IndentNormal with
      | .ok w2 st2 =>
        let (k2, st3) := st2.write "\x7d"
        .ok (w2 + k2) st3
      | r => r
    | .StringNode p v =>
      let valSt : String × PrSt :=
        if st.docstrings.contains p then
          (alignDocstring cfg.indentChar v w,
           { st with docstrings := st.docstrings.filter (· ≠ p) })
        else (v, st)
      let (k, st1) := valSt.2.write ("\"" ++ valSt.1 ++ "\"")
      .ok (w + k) st1
    | .SymbolNode _ v =>
      let (k, st1) := st.write v
      .ok (w + k) st1
    | .SyntaxQuoteNode _ child =>
      let (k, st1) := st.write "`"
      match child with
      | some c => printNodeGo fuel cfg st1 c (w + k)
      | none => .crash "nil node"
    | .TagNode _ v =>
      let (k, st1) := st.write ("#" ++ v)
      .ok (w + k) st1
    | .UnquoteNode _ child =>
      let (k, st1) := st.write "~"
      match child with
      | some c => printNodeGo fuel cfg st1 c (w + k)
      | none => .crash "nil node"
    | .UnquoteSpliceNode _ child =>
      let (k, st1) := st.write "~@"
      match child with
      | some c => printNodeGo fuel cfg st1 c (w + k)
      | none => .crash "nil node"
    | .VarQuoteNode _ v =>
      let (k, st1) := st.write ("#'" ++ v)
      .ok (w + k) st1
    | .VectorNode p nodes =>
      let styleSt : IndentStyle × PrSt :=
        match lookupP st.specialIndent p with
        | some sty => (sty, { st with specialIndent := eraseP st.specialIndent p })
        | none => (IndentNormal, st)
      let (k, st1) := styleSt.2.write "["
      match printSequenceGo fuel cfg st1 nodes (w + k) styleSt.1 with
      | .ok w2 st2 =>
        let (k2, st3) := st2.write "]"
        .ok (w2 + k2) st3
      | r => r
    | .IgnoreFormNode p _ =>
      match p with
      | some pos => .fmtFail (pos.render ++ ": unhandled node type *parse.IgnoreFormNode")
      | none => .crash "nil position"
termination_by structural fuel

/-- `Printer.printSequence` from format.go: set up the loop state (the pair
index starts at -1 when leading arguments precede the paired elements). -/
def printSequenceGo (fuel : Nat) (cfg : FmtCfg) (st : PrSt) (nodes : List Node)
    (w : Nat) (style : IndentStyle) : FRes :=
  match fuel with
  | 0 => .crash "out of fuel"
  | fuel + 1 =>
    let pairStartIdx := indentExtraOffsets style
    printSeqLoop fuel cfg st nodes 0
      ⟨w, w, false, false, 0, 0, 0, if pairStartIdx > 0 then -1 else 0, false⟩
      style pairStartIdx
termination_by structural fuel

/-- The body of `Printer.printSequence`'s loop, translated statement for
statement; `i` is the loop index and `s` the mutable locals. -/
def printSeqLoop (fuel : Nat) (cfg : FmtCfg) (st : PrSt) (nodes : List Node) (i : Nat)
    (s : SeqSt) (style : IndentStyle) (pairStartIdx : Nat) : FRes :=
  match fuel with
  | 0 => .crash "out of fuel"
  | fuel + 1 =>
    match nodes with
    | [] =>
      -- trailing indent so that the closing delimiter lands correctly
      if s.needIndent then
        let (_, st1) := st.write (String.mk (List.replicate s.w cfg.indentChar))
        .ok s.w2 st1
      else .ok s.w2 st
    | n :: rest =>
      if isNewlineFmt n then
        let wExtra : Nat × Bool :=
          if style = IndentList || style = IndentListBody || style = IndentLet ||
             style = IndentLetfn || style = IndentFor || style = IndentDeftype then
            (if i = 1 then s.w + 1 else s.w, s.extraIndent)
          else if style = indentBindings || style = IndentCond0 || style = IndentCond1 ||
                  style = IndentCond2 || style = IndentCond4 then
            if s.pairIdx > 0 then (s.w + 2, true)
            else if i = 1 && s.semanticIdx = 1 then (s.w + 1, s.extraIndent)
            else (s.w, s.extraIndent)
          else (s.w, s.extraIndent)
        let (_, st1) := st.write "\n"
        printSeqLoop fuel cfg st1 rest (i + 1)
          { s with w := wExtra.1, w2 := wExtra.1, needIndent := true, needSpace := false,
                   extraIndent := wExtra.2 }
          style pairStartIdx
      else
        let semantic := fmtSemantic n
        let wA :=
          if style = IndentList || style = IndentCond0 then
            if i = 1 then
              if !semantic && s.firstLen > indentListMaxCommentAlign then s.w + 1
              else s.firstIndent + 1
            else s.w
          else if style = IndentNormal || style = indentBindings then s.w
          else if i = 1 then s.w + 1 else s.w
        let st1 :=
          if s.needIndent then (st.write (String.mk (List.replicate wA cfg.indentChar))).2
          else st
        let w2St : Nat × PrSt :=
          if s.needSpace then (s.w2 + 1, (st1.write " ").2) else (s.w2, st1)
        match printNodeGo fuel cfg w2St.2 n w2St.1 with
        | .ok w2b st3 =>
          let firstIndent1 := if i = 0 then w2b else s.firstIndent
          let firstLen1 := if i = 0 then w2b - wA else s.firstLen
          let wExtra : Nat × Bool := if s.extraIndent then (wA - 2, false) else (wA, s.extraIndent)
          let semPair : Nat × Int :=
            if semantic then
              let si := s.semanticIdx + 1
              let pi1 := if s.pairIdx ≥ 0 then s.pairIdx + 1 else s.pairIdx
              let pi2 :=
                if si = pairStartIdx || (pi1 = 2 && !(isKeywordNodeVal n ":>>")) || pi1 > 2 then 0
                else pi1
              (si, pi2)
            else (s.semanticIdx, s.pairIdx)
          printSeqLoop fuel cfg st3 rest (i + 1)
            ⟨wExtra.1, w2b, true, false, firstIndent1, firstLen1, semPair.1, semPair.2, wExtra.2⟩
            style pairStartIdx
        | r => r
termination_by structural fuel

end

/-- Outcome of `Printer.PrintTree` on a tree. -/
inductive PrintOutcome where
  | ok (text : String)
  | fmtFail (msg : String)
  | crash (msg : String)
deriving Repr

/-- `Printer.PrintTree` with every transform disabled (the configuration
claimed: "no transforms applied").  `applyTransforms` guards each of its
mutations behind the corresponding transform flag, so with an all-false
`Transforms` map the tree passes through unchanged; the marking passes
(docstrings, thread-first forms, requires) always run, then the roots are
printed as a normal sequence at width 0. -/
def printTreeGo (fuel : Nat) (cfg : FmtCfg) (roots : List Node) : PrintOutcome :=
  let st0 := roots.foldl
    (fun acc root =>
      let acc1 := markDocstrings acc root
      let acc2 := { acc1 with threadFirst := markThreadFirsts fuel cfg acc1.threadFirst root }
      markRequires acc2 root) emptyPrSt
  match printSequenceGo fuel cfg st0 roots 0 IndentNormal with
  | .ok _ st => .ok st.out
  | .fmtFail m => .fmtFail m
  | .crash m => .crash m

/-- Outcome of the parse-then-print pipeline. -/
inductive FmtOutcome where
  | ok (text : String)
  | parseFail (e : GoError)
  | parseCrash (msg : String)
  | printFail (msg : String)
  | printCrash (msg : String)
deriving Repr

/-- Fuel for the printer; recursion depth is bounded by the input size. -/
def fmtFuel (s : String) : Nat := 16 * s.length + 64

/-- The full pipeline as claimed for round-tripping: parse with
non-semantic retention enabled, print with the default style tables and no
transforms. -/
def formatString (name s : String) : FmtOutcome :=
  match ParseString name s true with
  | .ok roots =>
    match printTreeGo (fmtFuel s) defaultFmtCfg roots with
    | .ok text => .ok text
    | .fmtFail m => .printFail m
    | .crash m => .printCrash m
  | .fail e => .parseFail e
  | .crash m => .parseCrash m


/-- An octal digit. -/
def isOctDigitC (c : Char) : Bool := '0' ≤ c && c ≤ '7'

/-- A hexadecimal digit. -/
def isHexDigitC (c : Char) : Bool :=
  ('0' ≤ c && c ≤ '9') || ('a' ≤ c && c ≤ 'f') || ('A' ≤ c && c ≤ 'F')

/-- A rune `strconv` accepts as a digit for the given base. -/
def validDigit (base : Nat) (c : Char) : Bool :=
  match digitValGo c with
  | some v => v < base
  | none => false


/-- Digit-run acceptance implied by `strconv.ParseInt` together with the
decoder's sign and byte-length checks: either `dl + 1` plain digits, or a
`+` followed by `dl` digits, or a `-` followed by `dl` zeros (the only
negative parse results that survive the `n < 0` rejection). -/
def signAccept (base dl : Nat) (ds : List Char) : Bool :=
  match ds with
  | [] => false
  | c :: es =>
    if c = '+' then es.length = dl && es.all (validDigit base)
    else if c = '-' then es.length = dl && es.all (fun x => x = '0')
    else (c :: es).length = dl + 1 && (c :: es).all (validDigit base)


/-- Acceptance for a multi-rune character-literal payload as the decoder
actually behaves: a named literal, or an `o`/`u` escape whose digit run may
carry a leading sign — a `+` with one fewer digit, or a `-` whose digits
are all zeros — with the length checks counting Go bytes. -/
def c7_amendMulti (val : String) (r0 : Char) (rest : List Char) : Bool :=
  if val = "newline" then true
  else if val = "space" then true
  else if val = "tab" then true
  else if val = "formfeed" then true
  else if val = "backspace" then true
  else if val = "return" then true
  else if r0 = 'o' then signAccept 8 2 rest
  else if r0 = 'u' then signAccept 16 3 rest
  else false

/-- Amended acceptance for a character-literal payload: a single rune
passes, the empty payload fails, and a multi-rune payload goes through
`c7_amendMulti`. -/
def c7_amendAccept (val : String) : Bool :=
  match val.data with
  | [_] => true
  | [] => false
  | r0 :: rest => c7_amendMulti val r0 rest

/-- The claim's acceptance predicate for a character-literal payload: a
single rune, a named literal, `o` plus exactly three octal digits, or `u`
plus exactly four hexadecimal digits. -/
def c7_claimAccept (val : String) : Bool :=
  match val.data with
  | [_] => true
  | [] => false
  | r0 :: rest =>
    if val = "newline" then true
    else if val = "space" then true
    else if val = "tab" then true
    else if val = "formfeed" then true
    else if val = "backspace" then true
    else if val = "return" then true
    else if r0 = 'o' then rest.length = 3 && rest.all isOctDigitC
    else if r0 = 'u' then rest.length = 4 && rest.all isHexDigitC
    else false


/-- Resolution candidates for a list-head symbol in the order the printer
actually tries them: for a qualified name, the alias-resolved qualified
form (when the namespace part is a recorded require alias), then the bare
unqualified part, then the name as written; for an unqualified name, the
refer-resolved qualified form (when the name was referred), then the name
as written. -/
def c8_amendCandidates (requiresTab refersTab : List (String × String))
    (name : String) : List String :=
  match lastIndexOf '/' name.data with
  | some i =>
    let ns := String.mk (name.data.take i)
    let unqualified := String.mk (name.data.drop (i + 1))
    (match lookupA requiresTab ns with
     | some req => [req ++ "/" ++ unqualified]
     | none => []) ++ [unqualified, name]
  | none =>
    (match lookupA refersTab name with
     | some req => [req ++ "/" ++ name]
     | none => []) ++ [name]

/-- The resolution order as the claim states it: an exact match on the name
as written first, then the alias-resolved qualified form, then the bare
part, then the `def`/`let`/`with-`/`when-` prefix heuristic, finally plain
list alignment. -/
def c8_claimChoose (requiresTab refersTab : List (String × String))
    (styles : List (String × IndentStyle)) (name : String) : IndentStyle :=
  let cands := [name] ++
    (match lastIndexOf '/' name.data with
     | some i =>
       let ns := String.mk (name.data.take i)
       let unqualified := String.mk (name.data.drop (i + 1))
       (match lookupA requiresTab ns with
        | some req => [req ++ "/" ++ unqualified]
        | none => []) ++ [unqualified]
     | none =>
       match lookupA refersTab name with
       | some req => [req ++ "/" ++ name]
       | none => [])
  match cands.findSome? (fun s => lookupA styles s) with
  | some style => style
  | none =>
    if ["def", "let", "with-", "when-"].any
        (fun p => p.data.isPrefixOf (symbolName name).data) then
      IndentStyle.IndentListBody
    else IndentStyle.IndentList

/-! ### Verification -/

theorem charLe_iff {a b : Char} : (a ≤ b) ↔ a.toNat ≤ b.toNat := Iff.rfl

theorem validDigit_eight_iff (c : Char) :
    validDigit 8 c = true ↔ isOctDigitC c = true := by
  have e0 : '0'.toNat = 48 := rfl
  have e7 : '7'.toNat = 55 := rfl
  have e9 : '9'.toNat = 57 := rfl
  have ea : 'a'.toNat = 97 := rfl
  have ez : 'z'.toNat = 122 := rfl
  have eA : 'A'.toNat = 65 := rfl
  have eZ : 'Z'.toNat = 90 := rfl
  unfold validDigit digitValGo isOctDigitC
  split_ifs with h1 h2 h3
  · simp only [Bool.and_eq_true, decide_eq_true_eq, charLe_iff, e0, e7, e9] at h1 ⊢
    omega
  · simp only [Bool.and_eq_true, decide_eq_true_eq, charLe_iff, e0, e7, e9, ea, ez] at h1 h2 ⊢
    omega
  · simp only [Bool.and_eq_true, decide_eq_true_eq, charLe_iff, e0, e7, e9, ea, ez, eA, eZ] at h1 h2 h3 ⊢
    omega
  · simp only [Bool.and_eq_true, decide_eq_true_eq, charLe_iff, e0, e7, e9, ea, ez, eA, eZ] at h1 h2 h3 ⊢
    constructor
    · intro hf
      exact absurd hf (by simp)
    · intro hr
      omega

theorem validDigit_sixteen_iff (c : Char) :
    validDigit 16 c = true ↔ isHexDigitC c = true := by
  have e0 : '0'.toNat = 48 := rfl
  have e9 : '9'.toNat = 57 := rfl
  have ea : 'a'.toNat = 97 := rfl
  have ef : 'f'.toNat = 102 := rfl
  have ez : 'z'.toNat = 122 := rfl
  have eA : 'A'.toNat = 65 := rfl
  have eF : 'F'.toNat = 70 := rfl
  have eZ : 'Z'.toNat = 90 := rfl
  unfold validDigit digitValGo isHexDigitC
  split_ifs with h1 h2 h3
  · simp only [Bool.or_eq_true, Bool.and_eq_true, decide_eq_true_eq, charLe_iff,
      e0, e9, ea, ef, eA, eF] at h1 ⊢
    omega
  · simp only [Bool.or_eq_true, Bool.and_eq_true, decide_eq_true_eq, charLe_iff,
      e0, e9, ea, ef, ez, eA, eF] at h1 h2 ⊢
    omega
  · simp only [Bool.or_eq_true, Bool.and_eq_true, decide_eq_true_eq, charLe_iff,
      e0, e9, ea, ef, ez, eA, eF, eZ] at h1 h2 h3 ⊢
    omega
  · simp only [Bool.or_eq_true, Bool.and_eq_true, decide_eq_true_eq, charLe_iff,
      e0, e9, ea, ef, ez, eA, eF, eZ] at h1 h2 h3 ⊢
    constructor
    · intro hf
      exact absurd hf (by simp)
    · intro hr
      omega

theorem digitValGo_zero_iff (c : Char) : digitValGo c = some 0 ↔ c = '0' := by
  have e0 : '0'.toNat = 48 := rfl
  have e9 : '9'.toNat = 57 := rfl
  have ea : 'a'.toNat = 97 := rfl
  have ez : 'z'.toNat = 122 := rfl
  have eA : 'A'.toNat = 65 := rfl
  have eZ : 'Z'.toNat = 90 := rfl
  constructor
  · intro h
    unfold digitValGo at h
    split_ifs at h with h1 h2 h3
    · simp only [Bool.and_eq_true, decide_eq_true_eq, charLe_iff, e0, e9,
        Option.some.injEq] at h1 h
      have hc : c.toNat = 48 := by omega
      have h4 := Char.ofNat_toNat c
      rw [hc] at h4
      exact h4.symm
    · simp only [Bool.and_eq_true, decide_eq_true_eq, charLe_iff, ea, ez,
        Option.some.injEq] at h2 h
      omega
    · simp only [Bool.and_eq_true, decide_eq_true_eq, charLe_iff, eA, eZ,
        Option.some.injEq] at h3 h
      omega
  · intro h
    subst h
    rfl

theorem octDigit_utf8Size (c : Char) (h : isOctDigitC c = true) : c.utf8Size = 1 := by
  have e0 : '0'.toNat = 48 := rfl
  have e7 : '7'.toNat = 55 := rfl
  simp only [isOctDigitC, Bool.and_eq_true, decide_eq_true_eq, charLe_iff, e0, e7] at h
  unfold Char.utf8Size
  rw [if_pos]
  show c.toNat ≤ 127
  omega

theorem hexDigit_utf8Size (c : Char) (h : isHexDigitC c = true) : c.utf8Size = 1 := by
  have e0 : '0'.toNat = 48 := rfl
  have e9 : '9'.toNat = 57 := rfl
  have ea : 'a'.toNat = 97 := rfl
  have ef : 'f'.toNat = 102 := rfl
  have eA : 'A'.toNat = 65 := rfl
  have eF : 'F'.toNat = 70 := rfl
  simp only [isHexDigitC, Bool.or_eq_true, Bool.and_eq_true, decide_eq_true_eq, charLe_iff,
    e0, e9, ea, ef, eA, eF] at h
  unfold Char.utf8Size
  rw [if_pos]
  show c.toNat ≤ 127
  omega

theorem validDigit_utf8Size (base : Nat) (c : Char)
    (h : validDigit base c = true) : c.utf8Size = 1 := by
  have e0 : '0'.toNat = 48 := rfl
  have e9 : '9'.toNat = 57 := rfl
  have ea : 'a'.toNat = 97 := rfl
  have ez : 'z'.toNat = 122 := rfl
  have eA : 'A'.toNat = 65 := rfl
  have eZ : 'Z'.toNat = 90 := rfl
  unfold validDigit digitValGo at h
  unfold Char.utf8Size
  rw [if_pos]
  show c.toNat ≤ 127
  split_ifs at h with h1 h2 h3
  · simp only [Bool.and_eq_true, decide_eq_true_eq, charLe_iff, e0, e9] at h1
    omega
  · simp only [Bool.and_eq_true, decide_eq_true_eq, charLe_iff, ea, ez] at h2
    omega
  · simp only [Bool.and_eq_true, decide_eq_true_eq, charLe_iff, eA, eZ] at h3
    omega

theorem parseUintGoAux_isSome (base : Nat) (ds : List Char) :
    ∀ acc : Nat, (parseUintGoAux base acc ds).isSome = ds.all (validDigit base) := by
  induction ds with
  | nil => intro acc; rfl
  | cons c rest ih =>
    intro acc
    unfold parseUintGoAux
    rw [List.all_cons]
    split
    · next v hd =>
      split
      · next hv =>
        rw [ih]
        have hvd : validDigit base c = true := by simp [validDigit, hd, hv]
        rw [hvd, Bool.true_and]
      · next hv =>
        have hvd : validDigit base c = false := by
          simp only [validDigit, hd]
          simpa using hv
        rw [hvd, Bool.false_and]
        rfl
    · next hd =>
      have hvd : validDigit base c = false := by simp [validDigit, hd]
      rw [hvd, Bool.false_and]
      rfl

theorem parseUintGoAux_lt (base : Nat) (ds : List Char) :
    ∀ acc n : Nat, parseUintGoAux base acc ds = some n → n < (acc + 1) * base ^ ds.length := by
  induction ds with
  | nil =>
    intro acc n h
    simp only [parseUintGoAux, Option.some.injEq] at h
    subst h
    simp
  | cons c rest ih =>
    intro acc n h
    unfold parseUintGoAux at h
    split at h
    · next v hd =>
      split at h
      · next hv =>
        have hrec := ih (acc * base + v) n h
        have h1 : acc * base + v + 1 ≤ (acc + 1) * base := by
          have h2 : acc * base + v + 1 ≤ acc * base + base := by omega
          calc acc * base + v + 1 ≤ acc * base + base := h2
            _ = (acc + 1) * base := by ring
        calc n < (acc * base + v + 1) * base ^ rest.length := hrec
          _ ≤ ((acc + 1) * base) * base ^ rest.length := Nat.mul_le_mul_right _ h1
          _ = (acc + 1) * base ^ (rest.length + 1) := by ring
          _ = (acc + 1) * base ^ (c :: rest).length := by simp
      · exact Option.noConfusion h
    · exact Option.noConfusion h

theorem parseUintGoAux_zero (base : Nat) (hb : 1 ≤ base) (ds : List Char) :
    ∀ acc : Nat, parseUintGoAux base acc ds = some 0 →
      acc = 0 ∧ ds.all (· = '0') = true := by
  induction ds with
  | nil =>
    intro acc h
    simp only [parseUintGoAux, Option.some.injEq] at h
    simp [h]
  | cons c rest ih =>
    intro acc h
    unfold parseUintGoAux at h
    split at h
    · next v hd =>
      split at h
      · next hv =>
        obtain ⟨hacc, hall⟩ := ih (acc * base + v) h
        have hv0 : v = 0 := by omega
        have hacc0 : acc = 0 := by
          rcases Nat.mul_eq_zero.mp (by omega : acc * base = 0) with h3 | h3
          · exact h3
          · omega
        subst hv0
        have hc : c = '0' := (digitValGo_zero_iff c).mp hd
        simp [hacc0, hall, hc]
      · exact Option.noConfusion h
    · exact Option.noConfusion h


theorem utf8Len_eq_length (ds : List Char) (h : ∀ c ∈ ds, c.utf8Size = 1) :
    utf8LenChars ds = ds.length := by
  induction ds with
  | nil => rfl
  | cons c rest ih =>
    unfold utf8LenChars
    rw [h c (by simp), ih (fun d hd => h d (by simp [hd]))]
    simp [Nat.add_comm]

theorem parseUintGoAux_all_zero (base : Nat) (hb : 2 ≤ base) (es : List Char) :
    es.all (· = '0') = true → parseUintGoAux base 0 es = some 0 := by
  induction es with
  | nil => intro h; rfl
  | cons c rest ih =>
    intro h
    rw [List.all_cons] at h
    obtain ⟨hc, hrest⟩ := by simpa using h
    subst hc
    unfold parseUintGoAux
    have hd : digitValGo '0' = some 0 := rfl
    rw [hd]
    show (if 0 < base then parseUintGoAux base (0 * base + 0) rest else none) = some 0
    rw [if_pos (by omega)]
    simpa using ih (by simpa using hrest)

theorem parseUintGo_all (base : Nat) (es : List Char) (hu : (parseUintGo base es).isSome = true) :
    es ≠ [] ∧ es.all (validDigit base) = true := by
  match es with
  | [] => exact absurd hu (by simp [parseUintGo])
  | e :: es' =>
    refine ⟨by simp, ?_⟩
    unfold parseUintGo at hu
    rw [parseUintGoAux_isSome base (e :: es') 0] at hu
    exact hu

theorem signedNumAccept (base k : Nat) (hb : 2 ≤ base) (hk : 2 ≤ k)
    (hbk : base ^ k < 2 ^ 31) (ds : List Char) :
    (∃ n : Int, parseIntGo base ds = some n ∧ ¬ n < 0 ∧ utf8LenChars ds = k) ↔
    ((ds.length = k ∧ ds.all (validDigit base) = true) ∨
     (∃ es, ds = '+' :: es ∧ es.length = k - 1 ∧ es.all (validDigit base) = true) ∨
     (∃ es, ds = '-' :: es ∧ es.length = k - 1 ∧ es.all (· = '0') = true)) := by
  have hsize : ∀ es : List Char, es.all (validDigit base) = true → utf8LenChars es = es.length := by
    intro es hall
    refine utf8Len_eq_length es (fun c hc => ?_)
    exact validDigit_utf8Size base c (by
      rw [List.all_eq_true] at hall
      exact hall c hc)
  have hzsize : ∀ es : List Char, es.all (· = '0') = true → utf8LenChars es = es.length := by
    intro es hall
    refine utf8Len_eq_length es (fun c hc => ?_)
    rw [List.all_eq_true] at hall
    have h0 := hall c hc
    simp only [decide_eq_true_eq] at h0
    subst h0
    rfl
  have hps : ('+' : Char).utf8Size = 1 := rfl
  have hms : ('-' : Char).utf8Size = 1 := rfl
  constructor
  · rintro ⟨n, hpi, hneg, hlen⟩
    rcases ds with _ | ⟨c, rest⟩
    · exact absurd hpi (by simp [parseIntGo])
    · by_cases hplus : c = '+'
      · subst hplus
        rcases hu : parseUintGo base rest with _ | m
        · rw [parseIntGo, if_pos rfl, hu] at hpi
          exact Option.noConfusion hpi
        · rw [parseIntGo, if_pos rfl, hu] at hpi
          replace hpi : (if m ≥ 2 ^ 31 then none else some ((m : Nat) : Int)) = some n := hpi
          split_ifs at hpi with h1
          obtain ⟨hne, hall⟩ := parseUintGo_all base rest (by simp [hu])
          refine Or.inr (Or.inl ⟨rest, rfl, ?_, hall⟩)
          have h2 := hsize rest hall
          unfold utf8LenChars at hlen
          omega
      · by_cases hminus : c = '-'
        · subst hminus
          rcases hu : parseUintGo base rest with _ | m
          · rw [parseIntGo, if_neg (by decide), if_pos rfl, hu] at hpi
            exact Option.noConfusion hpi
          · rw [parseIntGo, if_neg (by decide), if_pos rfl, hu] at hpi
            replace hpi : (if m > 2 ^ 31 then none else some (-((m : Nat) : Int))) = some n := hpi
            split_ifs at hpi with h1
            have hn : n = -(m : Int) := (Option.some.inj hpi).symm
            have hm0 : m = 0 := by
              rw [hn] at hneg
              omega
            subst hm0
            have hrest : rest ≠ [] := (parseUintGo_all base rest (by simp [hu])).1
            have hall0 : rest.all (· = '0') = true := by
              rcases rest with _ | ⟨r, rs⟩
              · exact absurd rfl hrest
              · replace hu : parseUintGoAux base 0 (r :: rs) = some 0 := hu
                exact (parseUintGoAux_zero base (by omega) (r :: rs) 0 hu).2
            refine Or.inr (Or.inr ⟨rest, rfl, ?_, hall0⟩)
            have h2 := hzsize rest hall0
            unfold utf8LenChars at hlen
            omega
        · rcases hu : parseUintGo base (c :: rest) with _ | m
          · rw [parseIntGo, if_neg hplus, if_neg hminus, hu] at hpi
            exact Option.noConfusion hpi
          · rw [parseIntGo, if_neg hplus, if_neg hminus, hu] at hpi
            replace hpi : (if m ≥ 2 ^ 31 then none else some ((m : Nat) : Int)) = some n := hpi
            split_ifs at hpi with h1
            have hall := (parseUintGo_all base (c :: rest) (by simp [hu])).2
            exact Or.inl ⟨by rw [← hsize _ hall, hlen], hall⟩
  · rintro (⟨hlen, hall⟩ | ⟨es, rfl, hlen, hall⟩ | ⟨es, rfl, hlen, hall⟩)
    · rcases ds with _ | ⟨c, rest⟩
      · rw [List.length_nil] at hlen
        omega
      · have hcval : validDigit base c = true := by
          rw [List.all_eq_true] at hall
          exact hall c (by simp)
        have hcp : c ≠ '+' := by
          intro h
          subst h
          simp [validDigit, digitValGo] at hcval
        have hcm : c ≠ '-' := by
          intro h
          subst h
          simp [validDigit, digitValGo] at hcval
        have hsome : (parseUintGoAux base 0 (c :: rest)).isSome = true := by
          rw [parseUintGoAux_isSome]
          exact hall
        obtain ⟨m, hm⟩ := Option.isSome_iff_exists.mp hsome
        have hbound : m < base ^ k := by
          have h3 := parseUintGoAux_lt base (c :: rest) 0 m hm
          rw [hlen] at h3
          simpa using h3
        refine ⟨(m : Int), ?_, by omega, by rw [hsize _ hall, hlen]⟩
        have hm2 : parseUintGo base (c :: rest) = some m := hm
        rw [parseIntGo, if_neg hcp, if_neg hcm, hm2]
        show (if m ≥ 2 ^ 31 then none else some ((m : Nat) : Int)) = some ((m : Nat) : Int)
        rw [if_neg (by omega)]
    · rcases es with _ | ⟨e, es'⟩
      · rw [List.length_nil] at hlen
        omega
      · have hsome : (parseUintGoAux base 0 (e :: es')).isSome = true := by
          rw [parseUintGoAux_isSome]
          exact hall
        obtain ⟨m, hm⟩ := Option.isSome_iff_exists.mp hsome
        have hbound : m < base ^ (k - 1) := by
          have h3 := parseUintGoAux_lt base (e :: es') 0 m hm
          rw [hlen] at h3
          simpa using h3
        have hbound2 : m < 2 ^ 31 := by
          have h4 : base ^ (k - 1) ≤ base ^ k := Nat.pow_le_pow_right (by omega) (by omega)
          omega
        refine ⟨(m : Int), ?_, by omega, ?_⟩
        · have hm2 : parseUintGo base (e :: es') = some m := hm
          rw [parseIntGo, if_pos rfl, hm2]
          show (if m ≥ 2 ^ 31 then none else some ((m : Nat) : Int)) = some ((m : Nat) : Int)
          rw [if_neg (by omega)]
        · unfold utf8LenChars
          rw [hsize _ hall]
          omega
    · rcases es with _ | ⟨e, es'⟩
      · rw [List.length_nil] at hlen
        omega
      · have hm := parseUintGoAux_all_zero base hb (e :: es') hall
        refine ⟨0, ?_, by omega, ?_⟩
        · have hm2 : parseUintGo base (e :: es') = some 0 := hm
          rw [parseIntGo, if_neg (by decide), if_pos rfl, hm2]
          show (if (0 : Nat) > 2 ^ 31 then none else some (-((0 : Nat) : Int))) = some 0
          rw [if_neg (by omega)]
          simp
        · unfold utf8LenChars
          rw [hzsize _ hall]
          omega

theorem signAccept_iff (base dl : Nat) (ds : List Char) :
    signAccept base dl ds = true ↔
    ((ds.length = dl + 1 ∧ ds.all (validDigit base) = true) ∨
     (∃ es, ds = '+' :: es ∧ es.length = dl ∧ es.all (validDigit base) = true) ∨
     (∃ es, ds = '-' :: es ∧ es.length = dl ∧ es.all (· = '0') = true)) := by
  rcases ds with _ | ⟨c, es⟩
  · simp [signAccept]
  · by_cases hp : c = '+'
    · subst hp
      rw [signAccept, if_pos rfl]
      constructor
      · intro h
        simp only [Bool.and_eq_true, decide_eq_true_eq] at h
        exact Or.inr (Or.inl ⟨es, rfl, h.1, h.2⟩)
      · rintro (⟨hlen, hall⟩ | ⟨es', he, h1, h2⟩ | ⟨es', he, h1, h2⟩)
        · have hpd : validDigit base '+' = false := rfl
          rw [List.all_cons, hpd] at hall
          exact absurd hall (by simp)
        · injection he with hc he'
          subst he'
          simp [h1, h2]
        · injection he with hc he'
          exact absurd hc (by decide)
    · by_cases hm : c = '-'
      · subst hm
        rw [signAccept, if_neg (by decide), if_pos rfl]
        constructor
        · intro h
          simp only [Bool.and_eq_true, decide_eq_true_eq] at h
          refine Or.inr (Or.inr ⟨es, rfl, h.1, ?_⟩)
          exact h.2
        · rintro (⟨hlen, hall⟩ | ⟨es', he, h1, h2⟩ | ⟨es', he, h1, h2⟩)
          · have hmd : validDigit base '-' = false := rfl
            rw [List.all_cons, hmd] at hall
            exact absurd hall (by simp)
          · injection he with hc he'
            exact absurd hc (by decide)
          · injection he with hc he'
            subst he'
            simp only [Bool.and_eq_true, decide_eq_true_eq]
            exact ⟨h1, h2⟩
      · rw [signAccept, if_neg hp, if_neg hm]
        constructor
        · intro h
          simp only [Bool.and_eq_true, decide_eq_true_eq] at h
          exact Or.inl ⟨h.1, h.2⟩
        · rintro (⟨hlen, hall⟩ | ⟨es', he, h1, h2⟩ | ⟨es', he, h1, h2⟩)
          · simp only [Bool.and_eq_true, decide_eq_true_eq]
            exact ⟨hlen, hall⟩
          · injection he with hc he'
            exact absurd hc hp
          · injection he with hc he'
            exact absurd hc hm

theorem escAccept_iff (base k : Nat) (hb : 2 ≤ base) (hk : 2 ≤ k)
    (hbk : base ^ k < 2 ^ 31) (ds : List Char) :
    (∃ n : Int, parseIntGo base ds = some n ∧ ¬ n < 0 ∧ utf8LenChars ds = k) ↔
    signAccept base (k - 1) ds = true := by
  rw [signAccept_iff]
  have hk1 : k - 1 + 1 = k := by omega
  rw [hk1]
  exact signedNumAccept base k hb hk hbk ds

set_option maxHeartbeats 1000000 in
theorem charLitMulti_iff (val : String) (r0 : Char) (rest : List Char)
    (hd : val.data = r0 :: rest) :
    (∃ n, charLitMulti val r0 = Except.ok n) ↔ c7_amendMulti val r0 rest = true := by
  have hgs : goStrLen val = r0.utf8Size + utf8LenChars rest := by
    unfold goStrLen
    rw [hd]
    rfl
  have hdrop : (val.drop 1).data = rest := by
    rw [String.data_drop, hd]
    rfl
  unfold charLitMulti c7_amendMulti
  split_ifs with h1 h2 h3 h4 h5 h6 h7 h8
  · exact ⟨fun _ => rfl, fun _ => ⟨10, rfl⟩⟩
  · exact ⟨fun _ => rfl, fun _ => ⟨32, rfl⟩⟩
  · exact ⟨fun _ => rfl, fun _ => ⟨9, rfl⟩⟩
  · exact ⟨fun _ => rfl, fun _ => ⟨12, rfl⟩⟩
  · exact ⟨fun _ => rfl, fun _ => ⟨127, rfl⟩⟩
  · exact ⟨fun _ => rfl, fun _ => ⟨13, rfl⟩⟩
  · have ho1 : ('o' : Char).utf8Size = 1 := rfl
    have hsz : goStrLen val = 1 + utf8LenChars rest := by
      rw [hgs, h7, ho1]
    rw [hdrop, ← escAccept_iff 8 3 (by norm_num) (by norm_num) (by norm_num) rest]
    constructor
    · rintro ⟨n, hn⟩
      rcases hpi : parseIntGo 8 rest with _ | m
      · rw [hpi] at hn
        exact absurd hn (by simp)
      · rw [hpi] at hn
        replace hn : (if (decide (goStrLen val ≠ 4) || decide (m < 0)) = true
            then Except.error "invalid octal literal"
            else Except.ok m.toNat) = Except.ok n := hn
        split_ifs at hn with hc
        simp only [Bool.or_eq_true, decide_eq_true_eq, not_or, ne_eq,
          Decidable.not_not] at hc
        exact ⟨m, rfl, hc.2, by omega⟩
    · rintro ⟨m, hpi, hneg, hlen⟩
      rw [hpi]
      show ∃ n, (if (decide (goStrLen val ≠ 4) || decide (m < 0)) = true
          then Except.error "invalid octal literal"
          else Except.ok m.toNat) = Except.ok n
      split_ifs with hc
      · exfalso
        simp only [Bool.or_eq_true, decide_eq_true_eq, ne_eq] at hc
        rcases hc with hc | hc
        · omega
        · exact hneg hc
      · exact ⟨m.toNat, rfl⟩
  · have hu1 : ('u' : Char).utf8Size = 1 := rfl
    have hsz : goStrLen val = 1 + utf8LenChars rest := by
      rw [hgs, h8, hu1]
    rw [hdrop, ← escAccept_iff 16 4 (by norm_num) (by norm_num) (by norm_num) rest]
    constructor
    · rintro ⟨n, hn⟩
      rcases hpi : parseIntGo 16 rest with _ | m
      · rw [hpi] at hn
        exact absurd hn (by simp)
      · rw [hpi] at hn
        replace hn : (if (decide (goStrLen val ≠ 5) || decide (m < 0)) = true
            then Except.error "invalid unicode literal"
            else Except.ok m.toNat) = Except.ok n := hn
        split_ifs at hn with hc
        simp only [Bool.or_eq_true, decide_eq_true_eq, not_or, ne_eq,
          Decidable.not_not] at hc
        exact ⟨m, rfl, hc.2, by omega⟩
    · rintro ⟨m, hpi, hneg, hlen⟩
      rw [hpi]
      show ∃ n, (if (decide (goStrLen val ≠ 5) || decide (m < 0)) = true
          then Except.error "invalid unicode literal"
          else Except.ok m.toNat) = Except.ok n
      split_ifs with hc
      · exfalso
        simp only [Bool.or_eq_true, decide_eq_true_eq, ne_eq] at hc
        rcases hc with hc | hc
        · omega
        · exact hneg hc
      · exact ⟨m.toNat, rfl⟩
  · constructor
    · rintro ⟨n, hn⟩
      exact absurd hn (by simp)
    · intro h
      exact absurd h (by simp)

theorem parseRootsLoop_errHead (k : Nat) (incl : Bool) (acc : List Node)
    (t : Token) (ts : List Token) (inL : Bool) (p : Pos)
    (ht : t.typ = .err) (hp : t.pos = some p) :
    parseRootsLoop (k + 2) incl acc (t :: ts) inL = .fail ⟨"lex", p, t.val⟩ := by
  have h2 : k + 2 = (k + 1) + 1 := rfl
  rw [h2, parseRootsLoop]
  have hg : parseGo (k + 1) incl (t :: ts) inL = .fail ⟨"lex", p, t.val⟩ := by
    rw [parseGo]
    simp [nextTok, ht, hp, errAt]
  rw [hg]

theorem ParseToks_errHead (t : Token) (ts : List Token) (incl : Bool) (p : Pos)
    (ht : t.typ = .err) (hp : t.pos = some p) :
    ParseToks incl (t :: ts) = .fail ⟨"lex", p, t.val⟩ := by
  rw [ParseToks]
  have hfe : parseFuel (t :: ts) = (8 * ts.length + 38) + 2 := by
    rw [parseFuel]
    simp
    omega
  rw [hfe]
  exact parseRootsLoop_errHead _ incl [] t ts false p ht hp

theorem lexStep_unreadable (rest : List Char) (pos start : Pos) (val : List Char) :
    lexStep ('#' :: '<' :: rest) pos start val =
      .cont [⟨.err, some start, "unreadable dispatch macro"⟩] rest
        (advancePos (advancePos pos '#') '<') start ((val ++ ['#']) ++ ['<']) := rfl

/-- C1: the claimed print-parse round trip fails on a canonically formatted
file.  Formatting the input consisting of a `#` tag before the symbol `_`
yields the canonical output text `#_` + newline, yet running the pipeline on
that canonical text returns no tree at all: the tree builder's
`parseIgnoreForm` panics with "should not happen", so `print(parse(file))`
cannot reproduce `file`. -/
theorem c1_roundtrip_bug :
    formatString "c1" "# _\n" = .ok "#_\n" ∧
    formatString "c1" "#_\n" = .parseCrash "should not happen" :=
  ⟨rfl, rfl⟩

/-- C2: the input `#_foobar` does not parse into a reader-discard node
wrapping the symbol `foobar` — the scanner emits the `#_` dispatch token
without pushing the `_` back, so the tree builder's `parseIgnoreForm` sees
the symbol `oobar` and panics with "should not happen"; the spaced variant
does parse, but as a tag node for `_`. -/
theorem c2_discard_crash :
    ParseString "c2" "#_foobar" true = .crash "should not happen" ∧
    ParseString "c2" "# _" true = .ok [.TagNode (some ⟨"c2", 1, 1, 2⟩) "_"] :=
  ⟨rfl, rfl⟩

/-- C3, as corrected: when a composite form (list, map, vector, fn literal,
set) meets end of input before its closing delimiter, the "unexpected EOF"
parse error carries the EOF token's position, whatever the opening
delimiter token `start` was — not the opening delimiter's position. -/
theorem c3_eof_error_position (fuel : Nat) (incl : Bool) (start t : Token)
    (acc : List Node) (ts : List Token) (inL : Bool) (p : Pos)
    (ht : t.typ = .eof) (hp : t.pos = some p) :
    parseListLoop (fuel + 1) incl start acc (t :: ts) inL =
      .fail ⟨"parse", p, "unexpected EOF"⟩ ∧
    parseMapLoop (fuel + 1) incl start acc (t :: ts) inL =
      .fail ⟨"parse", p, "unexpected EOF"⟩ ∧
    parseVectorLoop (fuel + 1) incl start acc (t :: ts) inL =
      .fail ⟨"parse", p, "unexpected EOF"⟩ ∧
    parseFnLitLoop (fuel + 1) incl start acc (t :: ts) =
      .fail ⟨"parse", p, "unexpected EOF"⟩ ∧
    parseSetLoop (fuel + 1) incl start acc (t :: ts) inL =
      .fail ⟨"parse", p, "unexpected EOF"⟩ := by
  refine ⟨?_, ?_, ?_, ?_, ?_⟩
  · rw [parseListLoop]
    simp [nextTok, ht, hp, errAt]
  · rw [parseMapLoop]
    simp [nextTok, ht, hp, errAt]
  · rw [parseVectorLoop]
    simp [nextTok, ht, hp, errAt]
  · rw [parseFnLitLoop]
    simp [nextTok, ht, hp, errAt]
  · rw [parseSetLoop]
    simp [nextTok, ht, hp, errAt]

theorem c3_eof_error_position_witness :
    parseListLoop 1 true ⟨.leftParen, some ⟨"w", 0, 1, 1⟩, "("⟩ []
      [⟨.eof, some ⟨"w", 2, 1, 3⟩, ""⟩] false =
      .fail ⟨"parse", ⟨"w", 2, 1, 3⟩, "unexpected EOF"⟩ ∧
    parseMapLoop 1 true ⟨.leftParen, some ⟨"w", 0, 1, 1⟩, "("⟩ []
      [⟨.eof, some ⟨"w", 2, 1, 3⟩, ""⟩] false =
      .fail ⟨"parse", ⟨"w", 2, 1, 3⟩, "unexpected EOF"⟩ ∧
    parseVectorLoop 1 true ⟨.leftParen, some ⟨"w", 0, 1, 1⟩, "("⟩ []
      [⟨.eof, some ⟨"w", 2, 1, 3⟩, ""⟩] false =
      .fail ⟨"parse", ⟨"w", 2, 1, 3⟩, "unexpected EOF"⟩ ∧
    parseFnLitLoop 1 true ⟨.leftParen, some ⟨"w", 0, 1, 1⟩, "("⟩ []
      [⟨.eof, some ⟨"w", 2, 1, 3⟩, ""⟩] =
      .fail ⟨"parse", ⟨"w", 2, 1, 3⟩, "unexpected EOF"⟩ ∧
    parseSetLoop 1 true ⟨.leftParen, some ⟨"w", 0, 1, 1⟩, "("⟩ []
      [⟨.eof, some ⟨"w", 2, 1, 3⟩, ""⟩] false =
      .fail ⟨"parse", ⟨"w", 2, 1, 3⟩, "unexpected EOF"⟩ :=
  c3_eof_error_position 0 true ⟨.leftParen, some ⟨"w", 0, 1, 1⟩, "("⟩
    ⟨.eof, some ⟨"w", 2, 1, 3⟩, ""⟩ [] [] false ⟨"w", 2, 1, 3⟩ rfl rfl

/-- C3 counterexample to the claim as stated: for the input `(a` the list
opens at column 1, but the "unexpected EOF" error is reported at column 3 —
the EOF's position, not the opening delimiter's. -/
theorem c3_counterexample :
    ParseString "c3" "(a" true =
      .fail ⟨"parse", ⟨"c3", 2, 1, 3⟩, "unexpected EOF"⟩ ∧
    (tokenize "c3" "(a".data).head? =
      some ⟨.leftParen, some ⟨"c3", 0, 1, 1⟩, "("⟩ :=
  ⟨rfl, rfl⟩

/-- C4: of the five wrapper tokens standing alone at end of input, only `~`
produces an error ending in "unexpected EOF"; `@`, apostrophe, backtick and
`~@` parse successfully into wrapper nodes with nil children, because the
dispatcher stores the nil result of the recursive `parse` call without
checking it. -/
theorem c4_wrappers_at_eof :
    ParseString "c4" "@" true = .ok [.DerefNode (some ⟨"c4", 0, 1, 1⟩) none] ∧
    ParseString "c4" "'" true = .ok [.QuoteNode (some ⟨"c4", 0, 1, 1⟩) none] ∧
    ParseString "c4" "`" true =
      .ok [.SyntaxQuoteNode (some ⟨"c4", 0, 1, 1⟩) none] ∧
    ParseString "c4" "~" true =
      .fail ⟨"parse", ⟨"c4", 1, 1, 2⟩, "unexpected EOF"⟩ ∧
    ParseString "c4" "~@" true =
      .ok [.UnquoteSpliceNode (some ⟨"c4", 0, 1, 1⟩) none] :=
  ⟨rfl, rfl, rfl, rfl, rfl⟩

/-- C5, as corrected: the map loop performs no pairing or parity check —
whatever children have accumulated when the closing brace arrives, even an
odd number of semantic ones, the map node is produced successfully. -/
theorem c5_map_no_parity (fuel : Nat) (incl : Bool) (start t : Token)
    (acc : List Node) (ts : List Token) (inL : Bool)
    (ht : t.typ = .rightBrace) :
    parseMapLoop (fuel + 1) incl start acc (t :: ts) inL =
      .ok (some (.MapNode start.pos acc)) ts inL := by
  rw [parseMapLoop]
  simp [nextTok, ht]

theorem c5_map_no_parity_witness :
    parseMapLoop 1 true ⟨.leftBrace, some ⟨"w", 0, 1, 1⟩, "\x7b"⟩
      [.KeywordNode (some ⟨"w", 1, 1, 2⟩) ":a"]
      [⟨.rightBrace, some ⟨"w", 3, 1, 4⟩, "\x7d"⟩] false =
      .ok (some (.MapNode (some ⟨"w", 0, 1, 1⟩)
        [.KeywordNode (some ⟨"w", 1, 1, 2⟩) ":a"])) [] false :=
  c5_map_no_parity 0 true ⟨.leftBrace, some ⟨"w", 0, 1, 1⟩, "\x7b"⟩
    ⟨.rightBrace, some ⟨"w", 3, 1, 4⟩, "\x7d"⟩
    [.KeywordNode (some ⟨"w", 1, 1, 2⟩) ":a"] [] false rfl

/-- C5 counterexample to the claim as stated: the map literal holding the
single keyword `:a` parses successfully into a map node with one semantic
child — an odd count — instead of raising a parse error. -/
theorem c5_counterexample :
    ParseString "c5" "\x7b:a\x7d" true =
      .ok [.MapNode (some ⟨"c5", 0, 1, 1⟩)
        [.KeywordNode (some ⟨"c5", 1, 1, 2⟩) ":a"]] ∧
    countSemantic [Node.KeywordNode (some ⟨"c5", 1, 1, 2⟩) ":a"] = 1 :=
  ⟨rfl, rfl⟩

/-- C6: fn literals may not nest — with the in-lambda flag set, the fn
literal builder fails at the inner form's own dispatch-token position
whatever follows; concretely the inner form of a nested pair errors at its
own column; the flag is reset to false when a literal's closing paren is
consumed, so two sibling fn literals parse without error. -/
theorem c6_fn_literal_nesting :
    (∀ (fuel : Nat) (incl : Bool) (start : Token) (ts : List Token),
      parseFnLiteralGo (fuel + 1) incl start ts true =
        errAt start.pos "parse" "cannot nest fn literals") ∧
    ParseString "c6" "#(#())" true =
      .fail ⟨"parse", ⟨"c6", 2, 1, 3⟩, "cannot nest fn literals"⟩ ∧
    (∀ (fuel : Nat) (incl : Bool) (start tok : Token) (acc : List Node)
      (ts : List Token), tok.typ = .rightParen →
      parseFnLitLoop (fuel + 1) incl start acc (tok :: ts) =
        .ok (some (.FnLiteralNode start.pos acc)) ts false) ∧
    ParseString "c6" "#() #()" true =
      .ok [.FnLiteralNode (some ⟨"c6", 0, 1, 1⟩) [],
           .FnLiteralNode (some ⟨"c6", 4, 1, 5⟩) []] := by
  refine ⟨?_, rfl, ?_, rfl⟩
  · intro fuel incl start ts
    rw [parseFnLiteralGo]
    simp
  · intro fuel incl start tok acc ts htok
    rw [parseFnLitLoop]
    simp [nextTok, htok]

/-- C7, as corrected: a character-literal payload decodes successfully
exactly when it is a single rune, one of the named literals, or an `o`/`u`
escape whose digit run passes `strconv.ParseInt` with the byte-length and
non-negativity checks — which admits, besides the claimed exact-digit
forms, a leading `+` with one fewer digit and a leading `-` over zeros. -/
theorem c7_char_literal_acceptance (val : String) :
    (∃ n, charLitDecode val = Except.ok n) ↔ c7_amendAccept val = true := by
  rcases hd : val.data with _ | ⟨r0, rest⟩
  · have h1 : charLitDecode val = Except.error "invalid character literal" := by
      rw [charLitDecode.eq_def, hd]
    have h2 : c7_amendAccept val = false := by
      rw [c7_amendAccept.eq_def, hd]
    rw [h1, h2]
    simp
  · rcases rest with _ | ⟨r1, rest'⟩
    · have h1 : charLitDecode val = Except.ok r0.toNat := by
        rw [charLitDecode.eq_def, hd]
      have h2 : c7_amendAccept val = true := by
        rw [c7_amendAccept.eq_def, hd]
      rw [h1, h2]
      simp
    · have h1 : charLitDecode val = charLitMulti val r0 := by
        rw [charLitDecode.eq_def, hd]
      have h2 : c7_amendAccept val = c7_amendMulti val r0 (r1 :: rest') := by
        rw [c7_amendAccept.eq_def, hd]
      rw [h1, h2]
      exact charLitMulti_iff val r0 (r1 :: rest') hd

/-- C7 counterexample to the claim as stated: the four-byte payload `o+12`
is not an `oNNN` form with three octal digits, yet the decoder accepts it
(`strconv.ParseInt` takes an optional leading sign), and the input `\o+12`
parses into a character node for code point 10. -/
theorem c7_counterexample :
    charLitDecode "o+12" = Except.ok 10 ∧
    c7_claimAccept "o+12" = false ∧
    ParseString "c7" "\\o+12" true =
      .ok [.CharacterNode (some ⟨"c7", 0, 1, 1⟩) 10 ""] :=
  ⟨rfl, rfl, rfl⟩

/-- C8, as corrected: the printer's full style choice for a list head
equals trying the candidate names in the order alias-resolved qualified
form, bare unqualified part, name as written (refer-resolved form then the
name as written for unqualified names) — the exact name as written is the
last lookup, not the first — and then falling back to the prefix heuristic
and plain list alignment. -/
theorem c8_resolution_order (requiresTab refersTab : List (String × String))
    (styles : List (String × IndentStyle)) (name : String) :
    chooseListIndent requiresTab refersTab styles name =
      (match (c8_amendCandidates requiresTab refersTab name).findSome?
          (fun s => lookupA styles s) with
       | some style => style
       | none =>
         if ["def", "let", "with-", "when-"].any
             (fun p => p.data.isPrefixOf (symbolName name).data) then
           IndentStyle.IndentListBody
         else IndentStyle.IndentList) := by
  rw [chooseListIndent, indentStyleForSymbol, c8_amendCandidates]
  rcases lastIndexOf '/' name.data with _ | i
  · rcases href : lookupA refersTab name with _ | req
    · rcases hn : lookupA styles name with _ | stn <;>
        simp [List.findSome?, Option.orElse, href, hn]
    · rcases hq : lookupA styles (req ++ "/" ++ name) with _ | stq <;>
        rcases hn : lookupA styles name with _ | stn <;>
        simp [List.findSome?, Option.orElse, href, hq, hn]
  · rcases hreq : lookupA requiresTab (String.mk (name.data.take i)) with _ | req
    · rcases hu : lookupA styles (String.mk (name.data.drop (i + 1))) with _ | stu <;>
        rcases hn : lookupA styles name with _ | stn <;>
        simp [List.findSome?, Option.orElse, hreq, hu, hn]
    · rcases hq : lookupA styles
          (req ++ "/" ++ String.mk (name.data.drop (i + 1))) with _ | stq <;>
        rcases hu : lookupA styles (String.mk (name.data.drop (i + 1))) with _ | stu <;>
        rcases hn : lookupA styles name with _ | stn <;>
        simp [List.findSome?, Option.orElse, hreq, hq, hu, hn]

/-- C8 counterexample to the claim as stated: with the style table holding
both the name as written (`x/f`, let-style) and its alias-resolved form
(`r/f`, list-body style) and the require table aliasing `x` to `r`, the
printer picks the alias-resolved entry, while the claim's order (exact
match first) would pick the let-style entry. -/
theorem c8_counterexample :
    chooseListIndent [("x", "r")] []
      [("x/f", IndentStyle.IndentLet), ("r/f", IndentStyle.IndentListBody)]
      "x/f" = IndentStyle.IndentListBody ∧
    c8_claimChoose [("x", "r")] []
      [("x/f", IndentStyle.IndentLet), ("r/f", IndentStyle.IndentListBody)]
      "x/f" = IndentStyle.IndentLet :=
  ⟨rfl, rfl⟩

/-- C9: any input beginning with the `#<` dispatch sequence fails to parse:
the scanner's first emitted token is the "unreadable dispatch macro" error
token at the input's start, the tree builder converts it into a lex error,
and the rendered error message contains the substring "unreadable". -/
theorem c9_unreadable_dispatch (name s : String) (incl : Bool) :
    ParseString name ("#<" ++ s) incl =
      .fail ⟨"lex", startPos name, "unreadable dispatch macro"⟩ ∧
    ∃ pre post : String,
      GoError.render ⟨"lex", startPos name, "unreadable dispatch macro"⟩ =
        pre ++ "unreadable" ++ post := by
  constructor
  · have hdata : ("#<" ++ s).data = '#' :: '<' :: s.data := by
      rw [String.data_append]
      rfl
    rw [ParseString, hdata, tokenize]
    have hlen : ('#' :: '<' :: s.data).length + 2 = (s.data.length + 3) + 1 := by
      simp
    rw [hlen, lexRun, lexStep_unreadable]
    exact ParseToks_errHead ⟨.err, some (startPos name), "unreadable dispatch macro"⟩
      (lexRun (s.data.length + 3) s.data
        (advancePos (advancePos (startPos name) '#') '<') (startPos name)
        (([] ++ ['#']) ++ ['<'])) incl (startPos name) rfl rfl
  · refine ⟨(("lex" ++ " error at ") ++ (startPos name).render) ++ ": ",
      " dispatch macro", ?_⟩
    rw [String.append_assoc]
    rfl

/-- C10: a lone colon does not produce an "empty keyword" error token: the
emptiness check in the scanner counts the colon itself (the accumulated
text already holds it), so it can never fire — the scanner emits a keyword
token whose whole text is `:` and the parse succeeds with a keyword node
whose value has no character after the colon. -/
theorem c10_colon_keyword :
    tokenize "c10" ":".data =
      [⟨.keyword, some ⟨"c10", 0, 1, 1⟩, ":"⟩,
       ⟨.eof, some ⟨"c10", 1, 1, 2⟩, ""⟩] ∧
    ParseString "c10" ":" true =
      .ok [.KeywordNode (some ⟨"c10", 0, 1, 1⟩) ":"] :=
  ⟨rfl, rfl⟩

end Goclj
